import Mathlib

/-!
# Verification of the dependamerge core against its specification

This file gives a shallow embedding, in Lean 4, of the parts of the
`dependamerge` Python code base that the specification's claims are about:

* `src/dependamerge/gerrit/client.py` — retry/backoff discipline of the
  Gerrit REST client (`_calculate_backoff`, `_request_with_retry`);
* `src/dependamerge/gerrit/comparator.py` — the similarity comparator
  (`GerritChangeComparator`) together with the fragment of Python's
  `difflib.SequenceMatcher` that it uses;
* `src/dependamerge/gerrit/models.py` — the value objects
  (`GerritChangeInfo`, `GerritComparisonResult`, `GerritSubmitResult`);
* `src/dependamerge/cli.py` — the merge orchestration (`merge`,
  `_merge_single_pr`);
* `src/dependamerge/gerrit/submit_manager.py` — the per-change submit flow
  (`_submit_single_change`).

Python strings are modelled as `List Char` (ASCII conventions: `\s`,
`\w`, `.lower()` are modelled over the ASCII alphabet, which covers every
string the code base manipulates).  Python floats are modelled as `ℚ`;
every float the comparator produces is an exact small rational, so no
rounding behaviour is lost.  Network effects are modelled by explicit
oracles: a function from the attempt number (or the call site) to the
outcome the remote service would produce.
-/

/-! ## Python string primitives -/

/-- Python `\s` (ASCII whitespace: space, tab, newline, CR, VT, FF). -/
def pyIsSpace (c : Char) : Bool :=
  c = ' ' || c = '\t' || c = '\n' || c = '\x0d' || c = '\x0b' || c = '\x0c'

/-- Python `\w` (ASCII word characters). -/
def pyIsWord (c : Char) : Bool :=
  c.isAlphanum || c = '_'

/-- Python `str.lower()` (ASCII case folding). -/
def pyLower (s : List Char) : List Char :=
  s.map Char.toLower

/-- Python `str.strip()`: remove leading and trailing whitespace. -/
def pyStrip (s : List Char) : List Char :=
  ((s.dropWhile pyIsSpace).reverse.dropWhile pyIsSpace).reverse

/-- Python substring test `needle in haystack`. -/
def containsSub (needle : List Char) : List Char → Bool
  | [] => needle.isEmpty
  | c :: rest => needle.isPrefixOf (c :: rest) || containsSub needle rest

/-! ## `gerrit/client.py` — `_calculate_backoff`

```python
def _calculate_backoff(attempt, base_delay=1.0, max_delay=30.0, jitter=0.5):
    delay = min(base_delay * (2**attempt), max_delay)
    jitter_amount = delay * jitter * float(random.random())
    return float(delay + jitter_amount)
```
The call to `random.random()` is modelled by the parameter `u ∈ [0,1)`. -/

def calculateBackoff (attempt : Nat) (baseDelay maxDelay jitter u : ℚ) : ℚ :=
  let delay := min (baseDelay * 2 ^ attempt) maxDelay
  let jitterAmount := delay * jitter * u
  delay + jitterAmount

/-- The pre-jitter delay of `_calculate_backoff`. -/
def preJitterDelay (attempt : Nat) (baseDelay maxDelay : ℚ) : ℚ :=
  min (baseDelay * 2 ^ attempt) maxDelay

/-! ## `gerrit/client.py` — `_request_with_retry`

The client classifies each attempt's outcome before deciding to retry:

* `GerritAuthError` (raised by `_request_via_urllib` for HTTP 401/403) and
  `GerritNotFoundError` (HTTP 404) are re-raised immediately;
* a `GerritRestError` carrying a status code in `_RETRYABLE_HTTP_CODES`
  is retried while attempts remain, any other `GerritRestError` is
  re-raised;
* any other exception is retried while attempts remain if its text
  matches `_TRANSIENT_ERR_SUBSTRINGS`, otherwise it is wrapped in a
  `GerritRestError` and raised.

An outcome below is what a single `_request` call produces. -/

/-- `_TRANSIENT_ERR_SUBSTRINGS` from `gerrit/client.py`. -/
def transientErrSubstrings : List (List Char) :=
  ["timed out".data, "temporarily unavailable".data, "temporary failure".data,
   "connection reset".data, "connection aborted".data, "broken pipe".data,
   "connection refused".data, "bad gateway".data, "service unavailable".data,
   "gateway timeout".data]

/-- `_RETRYABLE_HTTP_CODES` from `gerrit/client.py`. -/
def retryableHttpCodes : List Nat := [429, 500, 502, 503, 504]

/-- `_is_transient_error`: the exception text, lower-cased, contains one of
the transient substrings. -/
def isTransientError (msg : List Char) : Bool :=
  transientErrSubstrings.any (fun sub => containsSub sub (pyLower msg))

/-- Outcome of one `_request` call, as seen by `_request_with_retry`. -/
inductive AttemptOutcome where
  | ok (v : Nat)
  | authError (status : Nat)
  | notFoundError
  | restError (status : Option Nat)
  | exc (msg : List Char)
deriving DecidableEq

/-- The classification `_request_via_urllib` applies to an HTTP error
status: 401 and 403 become `GerritAuthError`, 404 becomes
`GerritNotFoundError`, anything else a `GerritRestError` carrying the
status code. -/
def classifyHttpError (status : Nat) : AttemptOutcome :=
  if status = 401 then .authError 401
  else if status = 403 then .authError 403
  else if status = 404 then .notFoundError
  else .restError (some status)

/-- Errors `_request_with_retry` can raise to its caller. -/
inductive FinalError where
  | auth (status : Nat)
  | notFound
  | rest (status : Option Nat)
  | wrappedRest (msg : List Char)
  | generic
deriving DecidableEq

/-- Does `_request_with_retry` retry this outcome (given attempts remain)? -/
def retryableOutcome : AttemptOutcome → Bool
  | .restError (some s) => retryableHttpCodes.contains s
  | .restError none => false
  | .exc msg => isTransientError msg
  | _ => false

/-- The loop body of `_request_with_retry`, starting at a given attempt
index.  Returns the final result together with the number of `_request`
calls that were issued. -/
def requestLoop (maxAttempts : Nat) (oracle : Nat → AttemptOutcome) :
    Nat → Nat → (Except FinalError Nat) × Nat
  | 0, attempt =>
    -- `for attempt in range(max_attempts)` exhausted without entering the
    -- body: only possible when `max_attempts = 0`; the code then raises a
    -- generic `GerritRestError`.  (`fuel = maxAttempts - attempt` counts
    -- remaining iterations; the recursion keeps that equation.)
    (.error .generic, attempt)
  | fuel + 1, attempt =>
    match oracle attempt with
    | .ok v => (.ok v, attempt + 1)
    | .authError s => (.error (.auth s), attempt + 1)
    | .notFoundError => (.error .notFound, attempt + 1)
    | .restError st =>
      if (match st with | some s => retryableHttpCodes.contains s | none => false)
          && attempt + 1 < maxAttempts then
        requestLoop maxAttempts oracle fuel (attempt + 1)
      else
        (.error (.rest st), attempt + 1)
    | .exc msg =>
      if isTransientError msg && attempt + 1 < maxAttempts then
        requestLoop maxAttempts oracle fuel (attempt + 1)
      else
        (.error (.wrappedRest msg), attempt + 1)

/-- `GerritRestClient._request_with_retry`, with the network modelled by
`oracle : attempt index → outcome`. -/
def requestWithRetry (maxAttempts : Nat) (oracle : Nat → AttemptOutcome) :
    (Except FinalError Nat) × Nat :=
  requestLoop maxAttempts oracle maxAttempts 0

/-! ## Regular-expression fragments used by the comparator

Each `re.sub`/`re.search` call in `comparator.py` uses a fixed concrete
pattern; the definitions below implement exactly those patterns' matching
semantics (leftmost match, greedy quantifiers), specialised to the
pattern in question.  Scanning advances one character at a time, as
Python's `re` does when a position fails to match. -/

/-- `[a-f0-9]`, the alphabet of the commit-hash pattern. -/
def isLowerHex (c : Char) : Bool :=
  c.isDigit || ('a' ≤ c && c ≤ 'f')

/-- `[a-zA-Z0-9.-]`, the alphabet of the pre-release suffix pattern. -/
def isPreChar (c : Char) : Bool :=
  c.isAlphanum || c = '.' || c = '-'

/-- Parse `\d+\.\d+\.\d+(?:\.\d+)?` at the front of `s`; returns the
consumed length and the remainder. -/
def matchVersionNum (s : List Char) : Option (Nat × List Char) :=
  let d1 := s.takeWhile Char.isDigit
  let r1 := s.dropWhile Char.isDigit
  if d1.isEmpty then none else
  match r1 with
  | '.' :: r2 =>
    let d2 := r2.takeWhile Char.isDigit
    let r3 := r2.dropWhile Char.isDigit
    if d2.isEmpty then none else
    match r3 with
    | '.' :: r4 =>
      let d3 := r4.takeWhile Char.isDigit
      let r5 := r4.dropWhile Char.isDigit
      if d3.isEmpty then none else
      let base := d1.length + 1 + d2.length + 1 + d3.length
      match r5 with
      | '.' :: r6 =>
        let d4 := r6.takeWhile Char.isDigit
        let r7 := r6.dropWhile Char.isDigit
        if d4.isEmpty then some (base, r5) else some (base + 1 + d4.length, r7)
      | _ => some (base, r5)
    | _ => none
  | _ => none

/-- Length matched at the front of `s` by `v?\d+\.\d+\.\d+(?:\.\d+)?`
(`withPre = false`, the pattern of `_normalize_filename`) or by
`v?\d+\.\d+\.\d+(?:\.\d+)?(?:-[a-zA-Z0-9.-]+)?` (`withPre = true`, the
pattern of `_normalize_subject` and `_normalize_message`). -/
def matchVersionAt (withPre : Bool) (s : List Char) : Option Nat :=
  let finish : Nat → Nat × List Char → Option Nat := fun vlen nr =>
    if withPre then
      match nr.2 with
      | '-' :: r2 =>
        let pre := r2.takeWhile isPreChar
        if pre.isEmpty then some (vlen + nr.1) else some (vlen + nr.1 + 1 + pre.length)
      | _ => some (vlen + nr.1)
    else some (vlen + nr.1)
  match s with
  | c :: rest =>
    if c = 'v' then
      -- `v?` is greedy: with a leading `v` the only viable parse starts
      -- at the `v` (the no-`v` fallback would need `v` to be a digit).
      match matchVersionNum rest with
      | none => none
      | some nr => finish 1 nr
    else
      match matchVersionNum (c :: rest) with
      | none => none
      | some nr => finish 0 nr
  | [] => none

/-- `re.sub` for the version pattern: every match is replaced by `repl`.
`fuel` bounds the number of scan steps; each step consumes at least one
character, so the callers' fuel `s.length` is never exhausted. -/
def subVersionFuel (withPre : Bool) (repl : List Char) : Nat → List Char → List Char
  | _, [] => []
  | 0, s => s
  | fuel + 1, c :: rest =>
    match matchVersionAt withPre (c :: rest) with
    | some n => repl ++ subVersionFuel withPre repl fuel (rest.drop (n - 1))
    | none => c :: subVersionFuel withPre repl fuel rest

/-- `re.sub` for the version pattern. -/
def subVersion (withPre : Bool) (repl : List Char) (s : List Char) : List Char :=
  subVersionFuel withPre repl s.length s

/-- Word-boundary test for the character following a candidate match. -/
def boundaryAfter : List Char → Bool
  | [] => true
  | d :: _ => !pyIsWord d

/-- `re.sub(r"\b[a-f0-9]{7,40}\b", repl, ·)`.  `prevWord` records whether
the character before the current position is a word character (the state
`\b` consults).  A maximal hex run matches exactly when it is delimited
by word boundaries and its length lies in `[7,40]`; runs longer than 40
match nowhere because every interior position lacks the leading
boundary. -/
def subHashAux (repl : List Char) : Nat → Bool → List Char → List Char
  | _, _, [] => []
  | 0, _, s => s
  | fuel + 1, prevWord, c :: rest =>
    let run := (c :: rest).takeWhile isLowerHex
    let after := (c :: rest).dropWhile isLowerHex
    if prevWord = false ∧ 7 ≤ run.length ∧ run.length ≤ 40 ∧ boundaryAfter after = true then
      repl ++ subHashAux repl fuel true after
    else
      c :: subHashAux repl fuel (pyIsWord c) rest

/-- `re.sub` for the commit-hash pattern, starting at a word boundary. -/
def subHash (repl : List Char) (s : List Char) : List Char :=
  subHashAux repl s.length false s

/-- Does `\d{4}-\d{2}-\d{2}` match at the front of `s`? -/
def matchDateAt : List Char → Bool
  | a :: b :: c :: d :: '-' :: e :: f :: '-' :: g :: h :: _ =>
    a.isDigit && b.isDigit && c.isDigit && d.isDigit && e.isDigit &&
      f.isDigit && g.isDigit && h.isDigit
  | _ => false

/-- `re.sub(r"\d{4}-\d{2}-\d{2}", repl, ·)`. -/
def subDateFuel (repl : List Char) : Nat → List Char → List Char
  | _, [] => []
  | 0, s => s
  | fuel + 1, c :: rest =>
    if matchDateAt (c :: rest) then repl ++ subDateFuel repl fuel (rest.drop 9)
    else c :: subDateFuel repl fuel rest

/-- `re.sub(r"\d{4}-\d{2}-\d{2}", repl, ·)`. -/
def subDate (repl : List Char) (s : List Char) : List Char :=
  subDateFuel repl s.length s

/-- Length matched at the front of `s` by `https?://[^\s]+`. -/
def matchUrlAt (s : List Char) : Option Nat :=
  if "https://".data.isPrefixOf s then
    let tok := (s.drop 8).takeWhile (fun c => !pyIsSpace c)
    if tok.isEmpty then none else some (8 + tok.length)
  else if "http://".data.isPrefixOf s then
    let tok := (s.drop 7).takeWhile (fun c => !pyIsSpace c)
    if tok.isEmpty then none else some (7 + tok.length)
  else none

/-- `re.sub(r"https?://[^\s]+", "", ·)`. -/
def subUrlFuel : Nat → List Char → List Char
  | _, [] => []
  | 0, s => s
  | fuel + 1, c :: rest =>
    match matchUrlAt (c :: rest) with
    | some n => subUrlFuel fuel (rest.drop (n - 1))
    | none => c :: subUrlFuel fuel rest

/-- `re.sub(r"https?://[^\s]+", "", ·)`. -/
def subUrl (s : List Char) : List Char :=
  subUrlFuel s.length s

/-- `re.sub(r"\s+", " ", ·)`: collapse each whitespace run to one space.
`inRun` is true while inside a run already replaced. -/
def subWsRunsAux (inRun : Bool) : List Char → List Char
  | [] => []
  | c :: rest =>
    if pyIsSpace c then
      if inRun then subWsRunsAux true rest
      else ' ' :: subWsRunsAux true rest
    else c :: subWsRunsAux false rest

/-- `re.sub(r"\s+", " ", ·)`. -/
def subWsRuns (s : List Char) : List Char :=
  subWsRunsAux false s

/-- `str.split()`: split on whitespace runs, dropping empty fields.
`acc` holds the reversed current word. -/
def pyWordsAux (acc : List Char) : List Char → List (List Char)
  | [] => if acc.isEmpty then [] else [acc.reverse]
  | c :: rest =>
    if pyIsSpace c then
      if acc.isEmpty then pyWordsAux [] rest
      else acc.reverse :: pyWordsAux [] rest
    else pyWordsAux (c :: acc) rest

/-- `str.split()`. -/
def pyWords (s : List Char) : List (List Char) :=
  pyWordsAux [] s

/-- `" ".join(words)`. -/
def joinWords : List (List Char) → List Char
  | [] => []
  | [w] => w
  | w :: ws => w ++ ' ' :: joinWords ws

/-! ## `difflib.SequenceMatcher` (as used by the comparator)

`comparator.py` calls `SequenceMatcher(None, x, y).ratio()`.  With
`isjunk=None` the junk set `bjunk` is empty, so in `find_longest_match`
the two junk-extension `while` loops never fire and the two non-junk
extension loops are modelled by `extendLeft`/`extendRight` below.  The
`autojunk` heuristic (elements of `b` occurring more than
`len(b)//100 + 1` times when `len(b) >= 200`) removes "popular" elements
from `b2j` but does not make them junk.

`ratio()` is `2*M / (len(a)+len(b))` where `M` is the total size of the
matching blocks collected by `get_matching_blocks`; only that total is
needed, so the queue-driven divide and conquer of `get_matching_blocks`
is modelled by the recursion `matchesSumFuel` (the queue visits exactly
the windows this recursion visits, and block merging preserves the
total).  The fuel `len(a)+len(b)+1` strictly exceeds the recursion
depth, because every sub-window is strictly smaller. -/

/-- Ascending indices at which `c` occurs in `b` (the `b2j` lists). -/
def indicesOfAux (c : Char) : List Char → Nat → List Nat
  | [], _ => []
  | d :: rest, i =>
    if d = c then i :: indicesOfAux c rest (i + 1) else indicesOfAux c rest (i + 1)

/-- `self.b2j` after `__chain_b`: occurrence indices, with "popular"
elements removed by the `autojunk` heuristic. -/
def b2j (b : List Char) (c : Char) : List Nat :=
  if 200 ≤ b.length && b.length / 100 + 1 < b.count c then []
  else indicesOfAux c b 0

/-- `(besti, bestj, bestsize)` of `find_longest_match`. -/
structure FLMBest where
  besti : Nat
  bestj : Nat
  bestsize : Nat
deriving DecidableEq

/-- Inner loop of `find_longest_match` over `b2j.get(a[i], [])`: builds
`newj2len` and updates the current best.  `j < blo` is `continue`;
`j >= bhi` is `break` (the index lists are ascending). -/
def flmRow (i blo bhi : Nat) (j2old : Nat → Nat) :
    List Nat → (Nat → Nat) → FLMBest → (Nat → Nat) × FLMBest
  | [], j2new, best => (j2new, best)
  | j :: rest, j2new, best =>
    if j < blo then flmRow i blo bhi j2old rest j2new best
    else if bhi ≤ j then (j2new, best)
    else
      -- `k = newj2len[j] = j2len.get(j-1, 0) + 1`; for `j = 0` Python
      -- looks up key `-1`, which is absent.
      let k := (if j = 0 then 0 else j2old (j - 1)) + 1
      let j2new2 := fun x => if x = j then k else j2new x
      let best2 :=
        if best.bestsize < k then FLMBest.mk (i + 1 - k) (j + 1 - k) k else best
      flmRow i blo bhi j2old rest j2new2 best2

/-- Outer loop of `find_longest_match` over `i in range(alo, ahi)`. -/
def flmRows (a : List Char) (bj : Char → List Nat) (blo bhi : Nat)
    (i ahi : Nat) (j2len : Nat → Nat) (best : FLMBest) : FLMBest :=
  if i < ahi then
    let step := flmRow i blo bhi j2len (bj (a.getD i ' ')) (fun _ => 0) best
    flmRows a bj blo bhi (i + 1) ahi step.1 step.2
  else best
termination_by ahi - i

/-- First (leftward) non-junk extension loop of `find_longest_match`. -/
def extendLeft (a b : List Char) (alo blo : Nat) (best : FLMBest) : FLMBest :=
  if h : alo < best.besti ∧ blo < best.bestj ∧
      a.getD (best.besti - 1) ' ' = b.getD (best.bestj - 1) ' ' then
    extendLeft a b alo blo (FLMBest.mk (best.besti - 1) (best.bestj - 1) (best.bestsize + 1))
  else best
termination_by best.besti - alo
decreasing_by
  show best.besti - 1 - alo < best.besti - alo
  omega

/-- Second (rightward) non-junk extension loop of `find_longest_match`. -/
def extendRight (a b : List Char) (ahi bhi : Nat) (best : FLMBest) : FLMBest :=
  if h : best.besti + best.bestsize < ahi ∧ best.bestj + best.bestsize < bhi ∧
      a.getD (best.besti + best.bestsize) ' ' = b.getD (best.bestj + best.bestsize) ' ' then
    extendRight a b ahi bhi (FLMBest.mk best.besti best.bestj (best.bestsize + 1))
  else best
termination_by ahi - (best.besti + best.bestsize)
decreasing_by
  show ahi - (best.besti + (best.bestsize + 1)) < ahi - (best.besti + best.bestsize)
  omega

/-- `SequenceMatcher.find_longest_match(alo, ahi, blo, bhi)`. -/
def findLongestMatch (a b : List Char) (alo ahi blo bhi : Nat) : FLMBest :=
  let best := flmRows a (b2j b) blo bhi alo ahi (fun _ => 0) (FLMBest.mk alo blo 0)
  extendRight a b ahi bhi (extendLeft a b alo blo best)

/-- Total size of the matching blocks of the window
`(alo, ahi, blo, bhi)`, as collected by `get_matching_blocks`. -/
def matchesSumFuel (a b : List Char) : Nat → Nat → Nat → Nat → Nat → Nat
  | 0, _, _, _, _ => 0
  | fuel + 1, alo, ahi, blo, bhi =>
    let m := findLongestMatch a b alo ahi blo bhi
    if m.bestsize = 0 then 0
    else
      (if alo < m.besti ∧ blo < m.bestj then
        matchesSumFuel a b fuel alo m.besti blo m.bestj else 0)
      + m.bestsize
      + (if m.besti + m.bestsize < ahi ∧ m.bestj + m.bestsize < bhi then
        matchesSumFuel a b fuel (m.besti + m.bestsize) ahi (m.bestj + m.bestsize) bhi else 0)

/-- `sum(size for _, _, size in get_matching_blocks())` over the whole
strings. -/
def matchesTotal (a b : List Char) : Nat :=
  matchesSumFuel a b (a.length + b.length + 1) 0 a.length 0 b.length

/-- `SequenceMatcher(None, a, b).ratio()`:
`2*M/T` for `T = len(a)+len(b)`, or `1.0` when `T = 0`. -/
def sequenceRatio (a b : List Char) : ℚ :=
  let total := a.length + b.length
  if total = 0 then 1
  else 2 * (matchesTotal a b : ℚ) / (total : ℚ)

/-! ## `gerrit/models.py` — value objects used by the comparator and the
submit manager

`GerritFileChange` and `GerritChangeInfo` carry further fields in the
source (`status`, line counts, labels, URLs, timestamps, permissions…);
only the fields consulted by the operations verified here are modelled. -/

structure GerritFileChange where
  filename : List Char
deriving DecidableEq

structure GerritChangeInfo where
  number : Nat
  project : List Char
  subject : List Char
  message : Option (List Char)
  owner : List Char
  status : List Char
  workInProgress : Bool
  filesChanged : List GerritFileChange
deriving DecidableEq

/-- `GerritChangeInfo.is_open`: the status is `NEW`. -/
def GerritChangeInfo.isOpen (c : GerritChangeInfo) : Bool :=
  c.status == "NEW".data

/-- A reason recorded in a comparison result.  The source stores formatted
strings (`f"Similar subjects (score: {score:.2f})"`); the embedding keeps
the structured content of each reason instead of its rendering. -/
inductive CompReason where
  | notAutomation
  | sameAuthor
  | similarSubjects (score : ℚ)
  | similarMessages (score : ℚ)
  | similarFiles (score : ℚ)
deriving DecidableEq

/-- `GerritComparisonResult` from `gerrit/models.py`. -/
structure GerritComparisonResult where
  isSimilar : Bool
  confidenceScore : ℚ
  reasons : List CompReason
deriving DecidableEq

/-- `GerritComparisonResult.not_similar`: `is_similar=False`,
`confidence_score=0.0`, reasons `[reason]` or `[]`. -/
def GerritComparisonResult.notSimilar (reason : Option CompReason) : GerritComparisonResult :=
  GerritComparisonResult.mk false 0 reason.toList

/-! ## `gerrit/comparator.py` — `GerritChangeComparator` -/

/-- `AUTOMATION_INDICATORS`. -/
def automationIndicators : List (List Char) :=
  ["dependabot".data, "pre-commit".data, "renovate".data, "github-actions".data,
   "auto-update".data, "automated".data, "bot".data, "pre-commit-ci".data,
   "greenkeeper".data, "snyk".data]

/-- `suf` is a suffix of `s`. -/
def endsWithL (suf s : List Char) : Bool :=
  suf.reverse.isPrefixOf s.reverse

/-- `_is_automation_change`: an indicator occurs in
`f"{subject} {message or ''} {owner}".lower()`, or the lower-cased
subject matches one of the `automation_patterns` (each of which is a
plain prefix or suffix test: `^chore\(deps\):`, `^build\(deps\):`,
`^chore: bump`, `^chore: update`, `\[bot\]$`). -/
def isAutomationChange (change : GerritChangeInfo) : Bool :=
  let text := pyLower (change.subject ++ ' ' :: (change.message.getD []) ++ ' ' :: change.owner)
  if automationIndicators.any (fun ind => containsSub ind text) then true
  else
    let subjectLower := pyLower change.subject
    "chore(deps):".data.isPrefixOf subjectLower ||
    "build(deps):".data.isPrefixOf subjectLower ||
    "chore: bump".data.isPrefixOf subjectLower ||
    "chore: update".data.isPrefixOf subjectLower ||
    endsWithL "[bot]".data subjectLower

/-- The `for suffix in ("-bot", "_bot", ".bot")` loop of
`_normalize_owner` (with `break` after the first removal). -/
def removeBotSuffixes (s : List Char) : List Char :=
  if endsWithL "-bot".data s then s.take (s.length - 4)
  else if endsWithL "_bot".data s then s.take (s.length - 4)
  else if endsWithL ".bot".data s then s.take (s.length - 4)
  else s

/-- `_normalize_owner`. -/
def normalizeOwner (owner : List Char) : List Char :=
  if owner.isEmpty then []
  else
    let n := pyStrip (pyLower owner)
    let n2 := if endsWithL "[bot]".data n then n.take (n.length - 5) else n
    removeBotSuffixes n2

/-- `_compare_owners`: 1.0 on equal normalized owners, else 0.0. -/
def compareOwners (source target : GerritChangeInfo) : ℚ :=
  if normalizeOwner source.owner = normalizeOwner target.owner then 1 else 0

/-- After a keyword (`bump`/`update`/`upgrade`) at the current position,
parse `\s+([^\s]+)\s+from\s+` and return the captured group.  Each greedy
run is maximal and deterministic: a shorter run would put a character of
the same class where the next literal is required. -/
def matchKwTailAt (kw s : List Char) : Option (List Char) :=
  if kw.isPrefixOf s then
    let r1 := s.drop kw.length
    if (r1.takeWhile pyIsSpace).isEmpty then none else
    let r2 := r1.dropWhile pyIsSpace
    let tok := r2.takeWhile (fun c => !pyIsSpace c)
    if tok.isEmpty then none else
    let r3 := r2.dropWhile (fun c => !pyIsSpace c)
    if (r3.takeWhile pyIsSpace).isEmpty then none else
    let r4 := r3.dropWhile pyIsSpace
    if "from".data.isPrefixOf r4 then
      match r4.drop 4 with
      | c :: _ => if pyIsSpace c then some tok else none
      | [] => none
    else none
  else none

/-- `(?:PRE\s*)?KW\s+([^\s]+)\s+from\s+` at one position.  The optional
prefix is tried first (greedy `?`); the captured group is the token after
the keyword either way. -/
def tryPatternAt (pre kw s : List Char) : Option (List Char) :=
  match (if pre.isPrefixOf s then
      matchKwTailAt kw ((s.drop pre.length).dropWhile pyIsSpace)
    else none) with
  | some g => some g
  | none => matchKwTailAt kw s

/-- `re.search` for one extraction pattern: leftmost position wins. -/
def searchPattern (pre kw : List Char) : List Char → Option (List Char)
  | [] => none
  | c :: rest =>
    match tryPatternAt pre kw (c :: rest) with
    | some g => some g
    | none => searchPattern pre kw rest

/-- `"` or `'`. -/
def isQuoteChar (c : Char) : Bool :=
  c.toNat = 34 || c.toNat = 39

/-- `re.sub(r'^["\']|["\']$', "", package)`: removes one leading and one
trailing quote character. -/
def stripQuotesOnce (s : List Char) : List Char :=
  let s1 := match s with
    | c :: rest => if isQuoteChar c then rest else c :: rest
    | [] => []
  match s1.getLast? with
  | some c => if isQuoteChar c then s1.dropLast else s1
  | none => s1

/-- The ordered pattern list of `_extract_package_name`, as
(optional-prefix, keyword) pairs. -/
def extractPatterns : List (List Char × List Char) :=
  [("chore:".data, "bump".data),
   ("chore:".data, "update".data),
   ("chore:".data, "upgrade".data),
   ("build(deps):".data, "bump".data),
   ("build(deps-dev):".data, "bump".data)]

/-- The `for pattern in patterns` loop of `_extract_package_name`. -/
def extractLoop (sl : List Char) : List (List Char × List Char) → List Char
  | [] => []
  | (pre, kw) :: rest =>
    match searchPattern pre kw sl with
    | some g => stripQuotesOnce (pyStrip g)
    | none => extractLoop sl rest

/-- `_extract_package_name`. -/
def extractPackageName (subject : List Char) : List Char :=
  extractLoop (pyLower subject) extractPatterns

/-- `_normalize_subject`: remove versions, commit hashes and dates,
collapse whitespace, lower-case. -/
def normalizeSubject (subject : List Char) : List Char :=
  let s1 := subVersion true [] subject
  let s2 := subHash [] s1
  let s3 := subDate [] s2
  pyLower (joinWords (pyWords s3))

/-- `_compare_subjects`. -/
def compareSubjects (subject1 subject2 : List Char) : ℚ :=
  let package1 := extractPackageName subject1
  let package2 := extractPackageName subject2
  if package1 ≠ [] ∧ package2 ≠ [] then
    if package1 = package2 then 1 else 0
  else
    sequenceRatio (normalizeSubject subject1) (normalizeSubject subject2)

/-- `_normalize_message`. -/
def normalizeMessage (message : List Char) : List Char :=
  let m1 := pyLower message
  let m2 := subUrl m1
  let m3 := subVersion true "VERSION".data m2
  let m4 := subHash "COMMIT".data m3
  let m5 := subDate "DATE".data m4
  pyStrip (subWsRuns m5)

/-- `_is_dependabot_message`: at least two of the indicator substrings
occur (note `"from .* to"` is used by the source as a literal substring,
not as a regular expression). -/
def isDependabotMessage (message : List Char) : Bool :=
  let ml := pyLower message
  2 ≤ (["dependabot".data, "bumps".data, "from .* to".data, "release notes".data,
        "changelog".data, "dependency-name:".data].countP
        (fun ind => containsSub ind ml))

/-- `re.search(r"dependency-name:\s*([^\s\n]+)", message, re.IGNORECASE)`:
the literal is matched case-insensitively, the group is taken from the
original text. -/
def searchDependencyName : List Char → Option (List Char)
  | [] => none
  | c :: rest =>
    if pyLower ((c :: rest).take 16) = "dependency-name:".data then
      let r1 := (c :: rest).drop 16
      let tok := (r1.dropWhile pyIsSpace).takeWhile (fun x => !pyIsSpace x)
      if tok.isEmpty then searchDependencyName rest else some tok
    else searchDependencyName rest

/-- `re.search(r"bumps\s+\[([^\]]+)\]", message, re.IGNORECASE)`. -/
def searchBumpsBracket : List Char → Option (List Char)
  | [] => none
  | c :: rest =>
    if pyLower ((c :: rest).take 5) = "bumps".data then
      let r1 := (c :: rest).drop 5
      if (r1.takeWhile pyIsSpace).isEmpty then searchBumpsBracket rest else
      match r1.dropWhile pyIsSpace with
      | b :: r3 =>
        if b.toNat = 91 then
          let grp := r3.takeWhile (fun x => x.toNat ≠ 93)
          if grp.isEmpty then searchBumpsBracket rest
          else match r3.dropWhile (fun x => x.toNat ≠ 93) with
            | d :: _ => if d.toNat = 93 then some grp else searchBumpsBracket rest
            | [] => searchBumpsBracket rest
        else searchBumpsBracket rest
      | [] => searchBumpsBracket rest
    else searchBumpsBracket rest

/-- `_extract_dependabot_package`. -/
def extractDependabotPackage (message : List Char) : List Char :=
  match searchDependencyName message with
  | some g => pyStrip g
  | none =>
    match searchBumpsBracket message with
    | some g => pyStrip g
    | none => []

/-- `_is_precommit_message`. -/
def isPrecommitMessage (message : List Char) : Bool :=
  let ml := pyLower message
  ["pre-commit".data, "autoupdate".data, "hooks".data,
   ".pre-commit-config.yaml".data].any (fun ind => containsSub ind ml)

/-- `_compare_automation_patterns`. -/
def compareAutomationPatterns (message1 message2 : List Char) : ℚ :=
  if isDependabotMessage message1 && isDependabotMessage message2 then
    let package1 := extractDependabotPackage message1
    let package2 := extractDependabotPackage message2
    if package1 ≠ [] ∧ package2 ≠ [] ∧ package1 = package2 then (95 : ℚ) / 100
    else if package1 ≠ [] ∧ package2 ≠ [] then (1 : ℚ) / 10
    else if isPrecommitMessage message1 && isPrecommitMessage message2 then (9 : ℚ) / 10
    else 0
  else if isPrecommitMessage message1 && isPrecommitMessage message2 then (9 : ℚ) / 10
  else 0

/-- `_compare_messages`. -/
def compareMessages (message1 message2 : Option (List Char)) : ℚ :=
  match message1, message2 with
  | some msg1, some msg2 =>
    if msg1.isEmpty || msg2.isEmpty then 0
    else
      let norm1 := normalizeMessage msg1
      let norm2 := normalizeMessage msg2
      if norm1.length < 50 ∨ norm2.length < 50 then (if norm1 = norm2 then 1 else 0)
      else
        let patternScore := compareAutomationPatterns msg1 msg2
        if 0 < patternScore then patternScore
        else sequenceRatio norm1 norm2
  | _, _ => 0

/-- `_normalize_filename`: strip `v?\d+\.\d+\.\d+(?:\.\d+)?` substrings,
lower-case. -/
def normalizeFilename (filename : List Char) : List Char :=
  pyLower (subVersion false [] filename)

/-- The workflow-directory marker checked by `_compare_files`. -/
def workflowsDir : List Char := ".github/workflows/".data

/-- `_compare_files`: Jaccard similarity over normalized filename sets,
floored at 0.5 when both sides touch workflow files. -/
def compareFiles (source target : GerritChangeInfo) : ℚ :=
  if source.filesChanged.isEmpty || target.filesChanged.isEmpty then 0
  else
    let sourceFiles : Finset (List Char) :=
      (source.filesChanged.map (fun f => normalizeFilename f.filename)).toFinset
    let targetFiles : Finset (List Char) :=
      (target.filesChanged.map (fun f => normalizeFilename f.filename)).toFinset
    let inter := (sourceFiles ∩ targetFiles).card
    let union := (sourceFiles ∪ targetFiles).card
    if union = 0 then 0
    else
      let baseScore : ℚ := (inter : ℚ) / (union : ℚ)
      let sourceWorkflows := sourceFiles.filter (fun f => containsSub workflowsDir f = true)
      let targetWorkflows := targetFiles.filter (fun f => containsSub workflowsDir f = true)
      if sourceWorkflows.Nonempty ∧ targetWorkflows.Nonempty then
        max baseScore ((1 : ℚ) / 2)
      else baseScore

/-- The default `similarity_threshold` of `GerritChangeComparator`. -/
def defaultSimilarityThreshold : ℚ := (8 : ℚ) / 10

/-- `compare_gerrit_changes`. -/
def compareGerritChanges (similarityThreshold : ℚ)
    (sourceChange targetChange : GerritChangeInfo) (onlyAutomation : Bool) :
    GerritComparisonResult :=
  if onlyAutomation && (!isAutomationChange sourceChange || !isAutomationChange targetChange) then
    GerritComparisonResult.notSimilar (some .notAutomation)
  else
    let ownerScore := compareOwners sourceChange targetChange
    let subjectScore := compareSubjects sourceChange.subject targetChange.subject
    let messageScore := compareMessages sourceChange.message targetChange.message
    let filesScore := compareFiles sourceChange targetChange
    let scores := [ownerScore, subjectScore, messageScore, filesScore]
    let reasons :=
      (if ownerScore = 1 then [CompReason.sameAuthor] else []) ++
      (if (7 : ℚ) / 10 < subjectScore then [CompReason.similarSubjects subjectScore] else []) ++
      (if (6 : ℚ) / 10 < messageScore then [CompReason.similarMessages messageScore] else []) ++
      (if (1 : ℚ) / 2 < filesScore then [CompReason.similarFiles filesScore] else [])
    let confidenceScore := if scores.isEmpty then 0 else scores.sum / (scores.length : ℚ)
    if similarityThreshold ≤ confidenceScore then
      GerritComparisonResult.mk true confidenceScore reasons
    else GerritComparisonResult.notSimilar none

/-- The arithmetic mean of the four dimension scores of a pair of
changes (the quantity the specification's aggregate-score sentence is
about). -/
def dimensionScoresMean (source target : GerritChangeInfo) : ℚ :=
  (compareOwners source target + compareSubjects source.subject target.subject +
   compareMessages source.message target.message + compareFiles source target) / 4

/-! ## `cli.py` — `_merge_single_pr` and the merge phase of `merge`

The GitHub client calls (`approve_pull_request`, `merge_pull_request`,
`fix_out_of_date_pr`) catch `GithubException` internally and return a
`bool`; `get_pull_request_info` may raise, and `_merge_single_pr` wraps
that call in `try/except`.  All of them are modelled by the oracle
below.  `PullRequestInfo` carries further fields in the source (title,
author, files, URLs); only the fields the merge logic consults are
modelled. -/

structure PullRequestInfo where
  number : Nat
  repositoryFullName : String
  mergeable : Option Bool
  mergeableState : String
deriving DecidableEq

/-- `MAX_RETRIES` from `cli.py`. -/
def maxRetries : Nat := 2

/-- Outcomes of the GitHub client calls issued while merging one PR.
`refreshed attempt = none` models `get_pull_request_info` raising (the
exception is caught and retrying stops). -/
structure GitHubOracle where
  approveOk : Bool
  mergeOk : Nat → Bool
  refreshed : Nat → Option PullRequestInfo
  fixOk : Nat → Bool

/-- Mutating/reading client calls issued by `_merge_single_pr`, in
order. -/
inductive CliEvent where
  | approve
  | mergeCall (attempt : Nat)
  | refresh (attempt : Nat)
  | fixBranch (attempt : Nat)
deriving DecidableEq

/-- The `for attempt in range(MAX_RETRIES + 1)` merge-retry loop of
`_merge_single_pr`.  `fuel = maxRetries + 1 - attempt` counts the
remaining loop iterations; the recursion keeps that equation, so the
fuel-exhausted case is the loop running out (returning `False`). -/
def mergeRetryLoop (o : GitHubOracle) :
    Nat → PullRequestInfo → Nat → List CliEvent → Bool × List CliEvent
  | 0, _, _, events => (false, events)
  | fuel + 1, pr, attempt, events =>
    let events1 := events ++ [CliEvent.mergeCall attempt]
    if o.mergeOk attempt then (true, events1)
    else if attempt < maxRetries then
      if pr.mergeableState = "behind" ∨ pr.mergeableState = "unknown" then
        let events2 := events1 ++ [CliEvent.refresh attempt]
        match o.refreshed attempt with
        | none => (false, events2)
        | some updated =>
          if updated.mergeableState = "behind" then
            let events3 := events2 ++ [CliEvent.fixBranch attempt]
            if o.fixOk attempt then mergeRetryLoop o fuel updated (attempt + 1) events3
            else (false, events3)
          else if updated.mergeableState ≠ pr.mergeableState then
            mergeRetryLoop o fuel updated (attempt + 1) events2
          else (false, events2)
      else (false, events1)
    else (false, events1)

/-- The approve-then-merge tail of `_merge_single_pr` (reached when the
pre-checks do not skip the PR). -/
def mergeAfterGate (pr : PullRequestInfo) (o : GitHubOracle) : Bool × List CliEvent :=
  if !o.approveOk then (false, [CliEvent.approve])
  else mergeRetryLoop o (maxRetries + 1) pr 0 [CliEvent.approve]

/-- `_merge_single_pr`.  The first two branches (`blocked` with
`mergeable is True` / `is False`) only print and fall through; a PR whose
`mergeable` is not `True` is otherwise skipped. -/
def mergeSinglePr (pr : PullRequestInfo) (o : GitHubOracle) : Bool × List CliEvent :=
  if pr.mergeableState = "blocked" ∧ pr.mergeable = some true then
    mergeAfterGate pr o
  else if pr.mergeableState = "blocked" ∧ pr.mergeable = some false then
    mergeAfterGate pr o
  else if pr.mergeable ≠ some true then (false, [])
  else mergeAfterGate pr o

/-- Trace of the merge phase of the `merge` command. -/
inductive PhaseEvent where
  | fixOutOfDate (pr : PullRequestInfo)
  | attemptMerge (pr : PullRequestInfo) (success : Bool)
deriving DecidableEq

/-- The `for target_pr, comparison in all_similar_prs` loop of `merge`:
optionally fix an out-of-date branch, then attempt the merge, counting
successes. -/
def mergePhaseLoop (fix : Bool) (po : PullRequestInfo → GitHubOracle) :
    List PullRequestInfo → Nat × List PhaseEvent
  | [] => (0, [])
  | pr :: rest =>
    let fixEvents := if fix ∧ pr.mergeableState = "behind" then [PhaseEvent.fixOutOfDate pr] else []
    let success := (mergeSinglePr pr (po pr)).1
    let tailResult := mergePhaseLoop fix po rest
    ((if success then 1 else 0) + tailResult.1,
      fixEvents ++ PhaseEvent.attemptMerge pr success :: tailResult.2)

/-- The merge phase of the `merge` command: process every similar PR,
then ("Finally merge the source PR") the source PR.  Returns
`merged_count` and the ordered event trace. -/
def mergePhase (similars : List PullRequestInfo) (source : PullRequestInfo)
    (fix : Bool) (po : PullRequestInfo → GitHubOracle) : Nat × List PhaseEvent :=
  let loopResult := mergePhaseLoop fix po similars
  let sourceFix :=
    if fix ∧ source.mergeableState = "behind" then [PhaseEvent.fixOutOfDate source] else []
  let sourceSuccess := (mergeSinglePr source (po source)).1
  (loopResult.1 + (if sourceSuccess then 1 else 0),
    loopResult.2 ++ sourceFix ++ [PhaseEvent.attemptMerge source sourceSuccess])

/-- The merge attempts of a phase trace, in order. -/
def mergeAttemptsOf : List PhaseEvent → List (PullRequestInfo × Bool)
  | [] => []
  | PhaseEvent.attemptMerge pr s :: rest => (pr, s) :: mergeAttemptsOf rest
  | PhaseEvent.fixOutOfDate _ :: rest => mergeAttemptsOf rest

/-! ## `gerrit/submit_manager.py` — `_submit_single_change`

`_review_change` and `_submit_change` return a `bool` and catch
`GerritRestError` (and its subclasses); any other exception they let
through is caught by the `except` clauses of `_submit_single_change`.
The oracle outcome covers both shapes.  The `duration_seconds` field
(wall-clock time) is not modelled. -/

inductive GerritCallOutcome where
  | ok (b : Bool)
  | raiseAuth (msg : String)
  | raiseRest (msg : String)
  | raiseOther (msg : String)
deriving DecidableEq

/-- `GerritSubmitResult` from `gerrit/models.py` (minus
`duration_seconds`). -/
structure GerritSubmitResult where
  changeNumber : Nat
  project : List Char
  success : Bool
  reviewed : Bool
  submitted : Bool
  error : Option String
deriving DecidableEq

/-- `GerritSubmitResult.success_result`. -/
def GerritSubmitResult.successResult (changeNumber : Nat) (project : List Char)
    (reviewed submitted : Bool) : GerritSubmitResult :=
  GerritSubmitResult.mk changeNumber project true reviewed submitted none

/-- `GerritSubmitResult.failure_result` (always `success=False`,
`submitted=False`). -/
def GerritSubmitResult.failureResult (changeNumber : Nat) (project : List Char)
    (error : String) (reviewed : Bool) : GerritSubmitResult :=
  GerritSubmitResult.mk changeNumber project false reviewed false (some error)

/-- The REST calls `_submit_single_change` issues, in order. -/
inductive SubmitEvent where
  | reviewCall
  | submitCall
deriving DecidableEq

/-- `_submit_single_change`. -/
def submitSingleChange (change : GerritChangeInfo)
    (reviewOutcome submitOutcome : GerritCallOutcome) (dryRun : Bool) :
    GerritSubmitResult × List SubmitEvent :=
  if !change.isOpen then
    (GerritSubmitResult.failureResult change.number change.project
      ("Change is not open (status: " ++ String.mk change.status ++ ")") false, [])
  else if change.workInProgress then
    (GerritSubmitResult.failureResult change.number change.project
      "Change is marked as Work In Progress" false, [])
  else if dryRun then
    (GerritSubmitResult.successResult change.number change.project true true, [])
  else
    match reviewOutcome with
    | .ok true =>
      match submitOutcome with
      | .ok true =>
        (GerritSubmitResult.successResult change.number change.project true true,
          [SubmitEvent.reviewCall, SubmitEvent.submitCall])
      | .ok false =>
        (GerritSubmitResult.failureResult change.number change.project
          "Failed to submit (change may not be submittable)" true,
          [SubmitEvent.reviewCall, SubmitEvent.submitCall])
      | .raiseAuth m =>
        (GerritSubmitResult.failureResult change.number change.project
          ("Authentication error: " ++ m) true,
          [SubmitEvent.reviewCall, SubmitEvent.submitCall])
      | .raiseRest m =>
        (GerritSubmitResult.failureResult change.number change.project
          ("REST error: " ++ m) true,
          [SubmitEvent.reviewCall, SubmitEvent.submitCall])
      | .raiseOther m =>
        (GerritSubmitResult.failureResult change.number change.project
          ("Unexpected error: " ++ m) true,
          [SubmitEvent.reviewCall, SubmitEvent.submitCall])
    | .ok false =>
      (GerritSubmitResult.failureResult change.number change.project
        "Failed to apply review" false, [SubmitEvent.reviewCall])
    | .raiseAuth m =>
      (GerritSubmitResult.failureResult change.number change.project
        ("Authentication error: " ++ m) false, [SubmitEvent.reviewCall])
    | .raiseRest m =>
      (GerritSubmitResult.failureResult change.number change.project
        ("REST error: " ++ m) false, [SubmitEvent.reviewCall])
    | .raiseOther m =>
      (GerritSubmitResult.failureResult change.number change.project
        ("Unexpected error: " ++ m) false, [SubmitEvent.reviewCall])

/-! ## Specification-side notions referenced by the claims -/

/-- Jaccard similarity of two finite sets, as defined by the
specification's glossary. -/
def jaccardQ (A B : Finset (List Char)) : ℚ :=
  ((A ∩ B).card : ℚ) / ((A ∪ B).card : ℚ)

/-- One of the owner suffixes `_normalize_owner` removes is still at the
end of `s`. -/
def endsWithBotSuffix (s : List Char) : Bool :=
  endsWithL "[bot]".data s || endsWithL "-bot".data s ||
  endsWithL "_bot".data s || endsWithL ".bot".data s

/-- The last character of `s` is whitespace. -/
def endsWithSpaceChar (s : List Char) : Bool :=
  match s.getLast? with
  | some c => pyIsSpace c
  | none => false

/-- The four C10 properties, as a predicate of the result/trace pair. -/
def submitInvariants (change : GerritChangeInfo) (ro : GerritCallOutcome)
    (out : GerritSubmitResult × List SubmitEvent) : Prop :=
  (SubmitEvent.submitCall ∈ out.2 →
    ro = GerritCallOutcome.ok true ∧ out.2 = [SubmitEvent.reviewCall, SubmitEvent.submitCall])
  ∧ (out.1.success = true →
    out.1.reviewed = true ∧ out.1.submitted = true ∧ out.1.error = none)
  ∧ ((change.isOpen = false ∨ change.workInProgress = true) →
    out.1.success = false ∧ out.2 = [])
  ∧ (out.1.success = false →
    out.1.submitted = false ∧ ∃ e, out.1.error = some e ∧ 0 < e.length)

/-- A 501 response followed by successes: HTTP 501 is a 5xx status but is
not in `_RETRYABLE_HTTP_CODES`. -/
def c4SpecOracle : Nat → AttemptOutcome :=
  fun i => if i = 0 then classifyHttpError 501 else AttemptOutcome.ok 7

/-- Two retryable outcomes (HTTP 503, then a transient network error)
followed by a success. -/
def c4WitnessOracle : Nat → AttemptOutcome :=
  fun i =>
    if i = 0 then AttemptOutcome.restError (some 503)
    else if i = 1 then AttemptOutcome.exc "timed out".data
    else AttemptOutcome.ok 7

/-- The normalized filename set `_compare_files` builds for one side. -/
def normalizedFileSet (c : GerritChangeInfo) : Finset (List Char) :=
  (c.filesChanged.map (fun f => normalizeFilename f.filename)).toFinset

/-- The workflow-touching subset of a normalized filename set. -/
def workflowTouch (A : Finset (List Char)) : Finset (List Char) :=
  A.filter (fun f => containsSub workflowsDir f = true)

/-- A change touching one workflow file (for concrete evaluations). -/
def c7Source : GerritChangeInfo :=
  GerritChangeInfo.mk 1 "p1".data "s1".data none "o1".data "NEW".data false
    [GerritFileChange.mk ".github/workflows/ci.yaml".data]

/-- A change touching a differently named workflow file. -/
def c7Target : GerritChangeInfo :=
  GerritChangeInfo.mk 2 "p2".data "s2".data none "o2".data "NEW".data false
    [GerritFileChange.mk ".github/workflows/other.yaml".data]

/-- An automation change bumping package `aaa` (no message, no files). -/
def c1Source : GerritChangeInfo :=
  GerritChangeInfo.mk 1 "p".data "Bump aaa from 1.0.0 to 2.0.0".data none
    "dependabot".data "NEW".data false []

/-- An automation change bumping package `bbb` (no message, no files). -/
def c1Target : GerritChangeInfo :=
  GerritChangeInfo.mk 2 "p".data "Bump bbb from 1.0.0 to 2.0.0".data none
    "dependabot".data "NEW".data false []

/-- Invariant of the `j2len` dictionaries of `find_longest_match`: a
non-zero value `v` at key `j` is the length of a match run ending at
column `j` (so `blo + v ≤ j + 1`) using at most `bound` processed rows. -/
def flmDictInv (blo bound : Nat) (j2 : Nat → Nat) : Prop :=
  ∀ j, j2 j = 0 ∨ (blo + j2 j ≤ j + 1 ∧ j2 j ≤ bound)

/-- Invariant of the running best match of `find_longest_match` after
the rows below `m` have been processed: the match lies inside the
window, and while no match has been recorded the best is still the
initial `(alo, blo, 0)`. -/
def flmBestInv (alo blo m bhi : Nat) (best : FLMBest) : Prop :=
  alo ≤ best.besti ∧ blo ≤ best.bestj
  ∧ (best.bestsize ≠ 0 → best.besti + best.bestsize ≤ m ∧ best.bestj + best.bestsize ≤ bhi)
  ∧ (best.bestsize = 0 → best.besti = alo ∧ best.bestj = blo)

/-! # Theorems -/

/-! ## Claim C5 — backoff formula -/

/-- C5: for every attempt number the computed backoff delay equals
`min(base_delay * 2^attempt, max_delay)` multiplied by
`(1 + jitter * u)` for the drawn `u ∈ [0,1)`; the pre-jitter delay is
capped at `max_delay` and doubles (before the cap) with each attempt. -/
theorem backoff_formula (attempt : Nat) (baseDelay maxDelay jitter u : ℚ)
    (hu0 : 0 ≤ u) (hu1 : u < 1) :
    calculateBackoff attempt baseDelay maxDelay jitter u
      = preJitterDelay attempt baseDelay maxDelay * (1 + jitter * u)
    ∧ preJitterDelay attempt baseDelay maxDelay ≤ maxDelay
    ∧ preJitterDelay (attempt + 1) baseDelay maxDelay
      = min (2 * (baseDelay * 2 ^ attempt)) maxDelay := by
  refine ⟨?_, ?_, ?_⟩
  · unfold calculateBackoff preJitterDelay
    ring
  · exact min_le_right _ _
  · unfold preJitterDelay
    rw [pow_succ]
    ring_nf

/-- Witness for C5 at `attempt = 3`, defaults
`base_delay = 1, max_delay = 30, jitter = 1/2`, draw `u = 1/2`. -/
theorem backoff_formula_witness :
    (0 ≤ (1 : ℚ) / 2 ∧ (1 : ℚ) / 2 < 1)
    ∧ (calculateBackoff 3 1 30 ((1 : ℚ) / 2) ((1 : ℚ) / 2)
        = preJitterDelay 3 1 30 * (1 + (1 : ℚ) / 2 * ((1 : ℚ) / 2))
      ∧ preJitterDelay 3 1 30 ≤ 30
      ∧ preJitterDelay 4 1 30 = min (2 * ((1 : ℚ) * 2 ^ 3)) 30) :=
  ⟨⟨by norm_num, by norm_num⟩,
    backoff_formula 3 1 30 ((1 : ℚ) / 2) ((1 : ℚ) / 2) (by norm_num) (by norm_num)⟩

/-! ## Claim C3 — merge ordering -/

theorem mergeAttemptsOf_append (l1 l2 : List PhaseEvent) :
    mergeAttemptsOf (l1 ++ l2) = mergeAttemptsOf l1 ++ mergeAttemptsOf l2 := by
  induction l1 with
  | nil => simp [mergeAttemptsOf]
  | cons e rest ih =>
    cases e <;> simp [mergeAttemptsOf, ih]

/-- C3: in every merge run the similar changes are processed in
discovery order before the source change, the source change is merged
last, and it is attempted whatever the outcomes (in particular failures)
of the similar merges were; `merged_count` counts the successes. -/
theorem merge_source_last (similars : List PullRequestInfo)
    (source : PullRequestInfo) (fix : Bool)
    (po : PullRequestInfo → GitHubOracle) :
    mergeAttemptsOf (mergePhase similars source fix po).2
      = similars.map (fun p => (p, (mergeSinglePr p (po p)).1))
        ++ [(source, (mergeSinglePr source (po source)).1)]
    ∧ (mergePhase similars source fix po).1
      = similars.countP (fun p => (mergeSinglePr p (po p)).1)
        + (if (mergeSinglePr source (po source)).1 then 1 else 0) := by
  constructor
  · unfold mergePhase
    rw [mergeAttemptsOf_append, mergeAttemptsOf_append]
    have hfix : ∀ pr : PullRequestInfo,
        mergeAttemptsOf
          (if fix ∧ pr.mergeableState = "behind" then [PhaseEvent.fixOutOfDate pr] else [])
          = [] := by
      intro pr
      split <;> simp [mergeAttemptsOf]
    rw [hfix]
    have hloop : ∀ l : List PullRequestInfo,
        mergeAttemptsOf (mergePhaseLoop fix po l).2
          = l.map (fun p => (p, (mergeSinglePr p (po p)).1)) := by
      intro l
      induction l with
      | nil => simp [mergePhaseLoop, mergeAttemptsOf]
      | cons pr rest ih =>
        simp only [mergePhaseLoop, List.map_cons]
        rw [mergeAttemptsOf_append]
        rw [hfix]
        simp [mergeAttemptsOf, ih]
    simp [hloop, mergeAttemptsOf]
  · unfold mergePhase
    have hloop : ∀ l : List PullRequestInfo,
        (mergePhaseLoop fix po l).1
          = l.countP (fun p => (mergeSinglePr p (po p)).1) := by
      intro l
      induction l with
      | nil => simp [mergePhaseLoop]
      | cons pr rest ih =>
        simp only [mergePhaseLoop, List.countP_cons, ih]
        by_cases hs : (mergeSinglePr pr (po pr)).1 <;> simp [hs] <;> omega
    simp [hloop]

/-! ## Claim C10 — `_submit_single_change` invariants -/

theorem stringAppend_length_pos (p m : String) (hp : 0 < p.length) :
    0 < (p ++ m).length := by
  rw [String.length_append]
  omega


theorem submitInvariants_of_failure_no_events (change : GerritChangeInfo)
    (ro : GerritCallOutcome) (e : String) (r : Bool) (he : 0 < e.length) :
    submitInvariants change ro
      (GerritSubmitResult.failureResult change.number change.project e r, []) := by
  refine ⟨?_, ?_, ?_, ?_⟩
  · intro h
    simp at h
  · intro h
    simp [GerritSubmitResult.failureResult] at h
  · intro _
    exact ⟨rfl, rfl⟩
  · intro _
    exact ⟨rfl, e, rfl, he⟩

theorem submitInvariants_of_failure_reviewOnly (change : GerritChangeInfo)
    (ro : GerritCallOutcome) (e : String) (r : Bool) (he : 0 < e.length)
    (hgate : ¬(change.isOpen = false ∨ change.workInProgress = true)) :
    submitInvariants change ro
      (GerritSubmitResult.failureResult change.number change.project e r,
        [SubmitEvent.reviewCall]) := by
  refine ⟨?_, ?_, fun h => absurd h hgate, ?_⟩
  · intro h
    simp at h
  · intro h
    simp [GerritSubmitResult.failureResult] at h
  · intro _
    exact ⟨rfl, e, rfl, he⟩

theorem submitInvariants_of_failure_bothCalls (change : GerritChangeInfo)
    (e : String) (r : Bool) (he : 0 < e.length)
    (hgate : ¬(change.isOpen = false ∨ change.workInProgress = true)) :
    submitInvariants change (GerritCallOutcome.ok true)
      (GerritSubmitResult.failureResult change.number change.project e r,
        [SubmitEvent.reviewCall, SubmitEvent.submitCall]) := by
  refine ⟨fun _ => ⟨rfl, rfl⟩, ?_, fun h => absurd h hgate, ?_⟩
  · intro h
    simp [GerritSubmitResult.failureResult] at h
  · intro _
    exact ⟨rfl, e, rfl, he⟩

/-- C10: with `dry_run=False`, the submit call is issued only after the
review call succeeded; a result with `success=True` has `reviewed=True`,
`submitted=True` and `error=None`; a change that is not open or is
work-in-progress yields a failure without any review or submit call; and
every result with `success=False` has `submitted=False` and a non-empty
error. -/
theorem submit_flow_invariants (change : GerritChangeInfo)
    (ro so : GerritCallOutcome) :
    submitInvariants change ro (submitSingleChange change ro so false) := by
  have hlit : ∀ s : List Char,
      0 < ("Change is not open (status: " ++ String.mk s ++ ")").length := by
    intro s
    exact stringAppend_length_pos _ _
      (stringAppend_length_pos _ _ (by decide))
  cases hopen : change.isOpen with
  | false =>
    have hres : submitSingleChange change ro so false
        = (GerritSubmitResult.failureResult change.number change.project
            ("Change is not open (status: " ++ String.mk change.status ++ ")") false, []) := by
      simp [submitSingleChange, hopen]
    rw [hres]
    exact submitInvariants_of_failure_no_events change ro _ _ (hlit change.status)
  | true =>
    cases hwip : change.workInProgress with
    | true =>
      have hres : submitSingleChange change ro so false
          = (GerritSubmitResult.failureResult change.number change.project
              "Change is marked as Work In Progress" false, []) := by
        simp [submitSingleChange, hopen, hwip]
      rw [hres]
      exact submitInvariants_of_failure_no_events change ro _ _ (by decide)
    | false =>
      have hgate : ¬(change.isOpen = false ∨ change.workInProgress = true) := by
        simp [hopen, hwip]
      rcases ro with b | m | m | m
      · cases b
        · have hres : submitSingleChange change (GerritCallOutcome.ok false) so false
              = (GerritSubmitResult.failureResult change.number change.project
                  "Failed to apply review" false, [SubmitEvent.reviewCall]) := by
            simp [submitSingleChange, hopen, hwip]
          rw [hres]
          exact submitInvariants_of_failure_reviewOnly change _ _ _ (by decide) hgate
        · rcases so with b2 | m2 | m2 | m2
          · cases b2
            · have hres : submitSingleChange change (GerritCallOutcome.ok true)
                  (GerritCallOutcome.ok false) false
                  = (GerritSubmitResult.failureResult change.number change.project
                      "Failed to submit (change may not be submittable)" true,
                    [SubmitEvent.reviewCall, SubmitEvent.submitCall]) := by
                simp [submitSingleChange, hopen, hwip]
              rw [hres]
              exact submitInvariants_of_failure_bothCalls change _ _ (by decide) hgate
            · have hres : submitSingleChange change (GerritCallOutcome.ok true)
                  (GerritCallOutcome.ok true) false
                  = (GerritSubmitResult.successResult change.number change.project true true,
                    [SubmitEvent.reviewCall, SubmitEvent.submitCall]) := by
                simp [submitSingleChange, hopen, hwip]
              rw [hres]
              refine ⟨fun _ => ⟨rfl, rfl⟩, fun _ => ⟨rfl, rfl, rfl⟩,
                fun h => absurd h hgate, ?_⟩
              intro h
              simp [GerritSubmitResult.successResult] at h
          · have hres : submitSingleChange change (GerritCallOutcome.ok true)
                (GerritCallOutcome.raiseAuth m2) false
                = (GerritSubmitResult.failureResult change.number change.project
                    ("Authentication error: " ++ m2) true,
                  [SubmitEvent.reviewCall, SubmitEvent.submitCall]) := by
              simp [submitSingleChange, hopen, hwip]
            rw [hres]
            exact submitInvariants_of_failure_bothCalls change _ _
              (stringAppend_length_pos _ _ (by decide)) hgate
          · have hres : submitSingleChange change (GerritCallOutcome.ok true)
                (GerritCallOutcome.raiseRest m2) false
                = (GerritSubmitResult.failureResult change.number change.project
                    ("REST error: " ++ m2) true,
                  [SubmitEvent.reviewCall, SubmitEvent.submitCall]) := by
              simp [submitSingleChange, hopen, hwip]
            rw [hres]
            exact submitInvariants_of_failure_bothCalls change _ _
              (stringAppend_length_pos _ _ (by decide)) hgate
          · have hres : submitSingleChange change (GerritCallOutcome.ok true)
                (GerritCallOutcome.raiseOther m2) false
                = (GerritSubmitResult.failureResult change.number change.project
                    ("Unexpected error: " ++ m2) true,
                  [SubmitEvent.reviewCall, SubmitEvent.submitCall]) := by
              simp [submitSingleChange, hopen, hwip]
            rw [hres]
            exact submitInvariants_of_failure_bothCalls change _ _
              (stringAppend_length_pos _ _ (by decide)) hgate
      · have hres : submitSingleChange change (GerritCallOutcome.raiseAuth m) so false
            = (GerritSubmitResult.failureResult change.number change.project
                ("Authentication error: " ++ m) false, [SubmitEvent.reviewCall]) := by
          simp [submitSingleChange, hopen, hwip]
        rw [hres]
        exact submitInvariants_of_failure_reviewOnly change _ _ _
          (stringAppend_length_pos _ _ (by decide)) hgate
      · have hres : submitSingleChange change (GerritCallOutcome.raiseRest m) so false
            = (GerritSubmitResult.failureResult change.number change.project
                ("REST error: " ++ m) false, [SubmitEvent.reviewCall]) := by
          simp [submitSingleChange, hopen, hwip]
        rw [hres]
        exact submitInvariants_of_failure_reviewOnly change _ _ _
          (stringAppend_length_pos _ _ (by decide)) hgate
      · have hres : submitSingleChange change (GerritCallOutcome.raiseOther m) so false
            = (GerritSubmitResult.failureResult change.number change.project
                ("Unexpected error: " ++ m) false, [SubmitEvent.reviewCall]) := by
          simp [submitSingleChange, hopen, hwip]
        rw [hres]
        exact submitInvariants_of_failure_reviewOnly change _ _ _
          (stringAppend_length_pos _ _ (by decide)) hgate

/-- Witness for C10 at a concrete open, non-WIP change with both calls
succeeding. -/
theorem submit_flow_invariants_witness :
    submitInvariants
      (GerritChangeInfo.mk 42 "proj".data "subj".data none "owner".data "NEW".data false [])
      (GerritCallOutcome.ok true)
      (submitSingleChange
        (GerritChangeInfo.mk 42 "proj".data "subj".data none "owner".data "NEW".data false [])
        (GerritCallOutcome.ok true) (GerritCallOutcome.ok true) false) :=
  submit_flow_invariants _ (.ok true) (.ok true)

/-! ## Claim C9 — approve/review failure handling -/

/-- Amended C9: in the per-change merge flow a failure of the
approve/review step causes the merge attempt for that change to fail
without the merge (or submit) step being attempted — in the GitHub flow
`_merge_single_pr` returns `False` right after the failed approval, and
in the Gerrit flow (where a +2 review is a submit precondition)
`_submit_single_change` returns a failure without calling submit. -/
theorem approve_failure_fails_attempt (pr : PullRequestInfo) (o : GitHubOracle)
    (happrove : o.approveOk = false) :
    ((mergeSinglePr pr o).1 = false
      ∧ ∀ attempt, CliEvent.mergeCall attempt ∉ (mergeSinglePr pr o).2)
    ∧ ∀ (change : GerritChangeInfo) (so : GerritCallOutcome),
        (submitSingleChange change (GerritCallOutcome.ok false) so false).1.success = false
        ∧ SubmitEvent.submitCall ∉
            (submitSingleChange change (GerritCallOutcome.ok false) so false).2 := by
  constructor
  · have hgate : mergeAfterGate pr o = (false, [CliEvent.approve]) := by
      simp [mergeAfterGate, happrove]
    unfold mergeSinglePr
    split
    · rw [hgate]
      exact ⟨rfl, by simp⟩
    · split
      · rw [hgate]
        exact ⟨rfl, by simp⟩
      · split
        · exact ⟨rfl, by simp⟩
        · rw [hgate]
          exact ⟨rfl, by simp⟩
  · intro change so
    cases hopen : change.isOpen with
    | false =>
      have hres : submitSingleChange change (GerritCallOutcome.ok false) so false
          = (GerritSubmitResult.failureResult change.number change.project
              ("Change is not open (status: " ++ String.mk change.status ++ ")") false,
            []) := by
        simp [submitSingleChange, hopen]
      rw [hres]
      exact ⟨rfl, by simp⟩
    | true =>
      cases hwip : change.workInProgress with
      | true =>
        have hres : submitSingleChange change (GerritCallOutcome.ok false) so false
            = (GerritSubmitResult.failureResult change.number change.project
                "Change is marked as Work In Progress" false, []) := by
          simp [submitSingleChange, hopen, hwip]
        rw [hres]
        exact ⟨rfl, by simp⟩
      | false =>
        have hres : submitSingleChange change (GerritCallOutcome.ok false) so false
            = (GerritSubmitResult.failureResult change.number change.project
                "Failed to apply review" false, [SubmitEvent.reviewCall]) := by
          simp [submitSingleChange, hopen, hwip]
        rw [hres]
        exact ⟨rfl, by simp⟩

/-- Counterexample to C9 as stated: a clean, mergeable PR whose approve
call fails while its merge call would succeed.  The claim says the flow
proceeds to the merge step; the code returns failure after issuing only
the approve call. -/
theorem approve_failure_counterexample :
    (mergeSinglePr (PullRequestInfo.mk 7 "org/repo" (some true) "clean")
        (GitHubOracle.mk false (fun _ => true) (fun _ => none) (fun _ => false))).1 = false
    ∧ (mergeSinglePr (PullRequestInfo.mk 7 "org/repo" (some true) "clean")
        (GitHubOracle.mk false (fun _ => true) (fun _ => none) (fun _ => false))).2
      = [CliEvent.approve] := by
  constructor
  · rfl
  · rfl

/-- Witness for the amended C9 at a concrete PR and oracle. -/
theorem approve_failure_witness :
    (GitHubOracle.mk false (fun _ => true) (fun _ => none) (fun _ => false)).approveOk = false
    ∧ (((mergeSinglePr (PullRequestInfo.mk 7 "org/repo" (some true) "clean")
          (GitHubOracle.mk false (fun _ => true) (fun _ => none) (fun _ => false))).1 = false
      ∧ ∀ attempt, CliEvent.mergeCall attempt ∉
          (mergeSinglePr (PullRequestInfo.mk 7 "org/repo" (some true) "clean")
            (GitHubOracle.mk false (fun _ => true) (fun _ => none) (fun _ => false))).2)
    ∧ ∀ (change : GerritChangeInfo) (so : GerritCallOutcome),
        (submitSingleChange change (GerritCallOutcome.ok false) so false).1.success = false
        ∧ SubmitEvent.submitCall ∉
            (submitSingleChange change (GerritCallOutcome.ok false) so false).2) :=
  ⟨rfl, approve_failure_fails_attempt _ _ rfl⟩

/-! ## Claim C4 — retry counts of `_request_with_retry` -/

theorem retryable_restError (st : Option Nat) :
    retryableOutcome (AttemptOutcome.restError st) = true →
    (match st with
      | some s => retryableHttpCodes.contains s
      | none => false) = true := by
  intro h
  cases st with
  | some s => simpa [retryableOutcome] using h
  | none => simp [retryableOutcome] at h

theorem requestLoop_attempts_le (maxA : Nat) (oracle : Nat → AttemptOutcome) :
    ∀ fuel attempt, (requestLoop maxA oracle fuel attempt).2 ≤ attempt + fuel := by
  intro fuel
  induction fuel with
  | zero =>
    intro attempt
    simp [requestLoop]
  | succ n ih =>
    intro attempt
    cases hout : oracle attempt with
    | ok v =>
      simp only [requestLoop, hout]
      omega
    | authError s =>
      simp only [requestLoop, hout]
      omega
    | notFoundError =>
      simp only [requestLoop, hout]
      omega
    | restError st =>
      simp only [requestLoop, hout]
      split
      · exact le_trans (ih (attempt + 1)) (by omega)
      · omega
    | exc msg =>
      simp only [requestLoop, hout]
      split
      · exact le_trans (ih (attempt + 1)) (by omega)
      · omega

theorem requestLoop_skip_transient (maxA : Nat) (oracle : Nat → AttemptOutcome) :
    ∀ (N attempt v : Nat),
    (∀ i, i < N → retryableOutcome (oracle (attempt + i)) = true) →
    oracle (attempt + N) = AttemptOutcome.ok v →
    attempt + N < maxA →
    requestLoop maxA oracle (maxA - attempt) attempt = (Except.ok v, attempt + N + 1) := by
  intro N
  induction N with
  | zero =>
    intro attempt v _ hok hlt
    obtain ⟨k, hk⟩ : ∃ k, maxA - attempt = k + 1 := ⟨maxA - attempt - 1, by omega⟩
    rw [hk]
    rw [Nat.add_zero] at hok
    simp [requestLoop, hok]
  | succ n ih =>
    intro attempt v hretry hok hlt
    have hk : maxA - attempt = maxA - (attempt + 1) + 1 := by omega
    have hlt1 : attempt + 1 < maxA := by omega
    have h0 : retryableOutcome (oracle attempt) = true := by
      simpa using hretry 0 (by omega)
    have hshift : ∀ i, i < n → retryableOutcome (oracle (attempt + 1 + i)) = true := by
      intro i hi
      have heq : attempt + 1 + i = attempt + (i + 1) := by omega
      rw [heq]
      exact hretry (i + 1) (by omega)
    have hok1 : oracle (attempt + 1 + n) = AttemptOutcome.ok v := by
      have heq : attempt + 1 + n = attempt + (n + 1) := by omega
      rw [heq]
      exact hok
    have hlt2 : attempt + 1 + n < maxA := by omega
    have htail := ih (attempt + 1) v hshift hok1 hlt2
    have hfin : attempt + 1 + n + 1 = attempt + (n + 1) + 1 := by omega
    rw [hfin] at htail
    rw [hk]
    cases hout : oracle attempt with
    | ok v0 =>
      rw [hout] at h0
      simp [retryableOutcome] at h0
    | authError s =>
      rw [hout] at h0
      simp [retryableOutcome] at h0
    | notFoundError =>
      rw [hout] at h0
      simp [retryableOutcome] at h0
    | restError st =>
      rw [hout] at h0
      simp only [requestLoop, hout]
      rw [retryable_restError st h0]
      simp only [hlt1, decide_True, Bool.true_and, if_true]
      exact htail
    | exc msg =>
      rw [hout] at h0
      have hcond : isTransientError msg = true := by
        simpa [retryableOutcome] using h0
      simp only [requestLoop, hout]
      rw [hcond]
      simp only [hlt1, decide_True, Bool.true_and, if_true]
      exact htail

/-- Amended C4: attempts never exceed `max_attempts`; `N` outcomes that
the code classifies as retryable (HTTP 429/500/502/503/504, or a network
error matching the transient substrings) followed by a success produce
exactly `N+1` attempts; a single HTTP 401/403 (resp. 404) produces
exactly one attempt and is raised as `GerritAuthError`
(resp. `GerritNotFoundError`). -/
theorem retry_discipline (maxA : Nat) (oracle : Nat → AttemptOutcome) :
    (requestWithRetry maxA oracle).2 ≤ maxA
    ∧ (∀ N v, (∀ i, i < N → retryableOutcome (oracle i) = true) →
        oracle N = AttemptOutcome.ok v → N < maxA →
        requestWithRetry maxA oracle = (Except.ok v, N + 1))
    ∧ (∀ s, s = 401 ∨ s = 403 → oracle 0 = classifyHttpError s → 1 ≤ maxA →
        requestWithRetry maxA oracle = (Except.error (FinalError.auth s), 1))
    ∧ (oracle 0 = classifyHttpError 404 → 1 ≤ maxA →
        requestWithRetry maxA oracle = (Except.error FinalError.notFound, 1)) := by
  refine ⟨?_, ?_, ?_, ?_⟩
  · simpa using requestLoop_attempts_le maxA oracle maxA 0
  · intro N v hretry hok hlt
    have := requestLoop_skip_transient maxA oracle N 0 v
      (by simpa using hretry) (by simpa using hok) (by omega)
    simpa [requestWithRetry] using this
  · intro s hs h0 hmax
    obtain ⟨k, hk⟩ : ∃ k, maxA = k + 1 := ⟨maxA - 1, by omega⟩
    have hcls : classifyHttpError s = AttemptOutcome.authError s := by
      rcases hs with h | h <;> subst h <;> rfl
    rw [hcls] at h0
    unfold requestWithRetry
    rw [hk]
    simp [requestLoop, h0]
  · intro h0 hmax
    obtain ⟨k, hk⟩ : ∃ k, maxA = k + 1 := ⟨maxA - 1, by omega⟩
    have hcls : classifyHttpError 404 = AttemptOutcome.notFoundError := by rfl
    rw [hcls] at h0
    unfold requestWithRetry
    rw [hk]
    simp [requestLoop, h0]

/-- Counterexample to C4 as stated: HTTP 501 is a 5xx response, so the
claim classifies it as transient and predicts `N+1 = 2` attempts ending
in the success the second request would return; the code retries only
`_RETRYABLE_HTTP_CODES = {429, 500, 502, 503, 504}`, so the 501 is
raised immediately after exactly one attempt. -/
theorem retry_501_counterexample :
    requestWithRetry 5 c4SpecOracle = (Except.error (FinalError.rest (some 501)), 1)
    ∧ c4SpecOracle 1 = AttemptOutcome.ok 7
    ∧ (1 : Nat) ≠ 2 := by
  refine ⟨rfl, rfl, by decide⟩

/-- Witness for the amended C4: two retryable failures (HTTP 503, then a
transient network error) followed by a success yield exactly 3 attempts. -/
theorem retry_discipline_witness :
    ((∀ i, i < 2 → retryableOutcome (c4WitnessOracle i) = true)
      ∧ c4WitnessOracle 2 = AttemptOutcome.ok 7 ∧ 2 < 5)
    ∧ requestWithRetry 5 c4WitnessOracle = (Except.ok 7, 3) := by
  refine ⟨⟨?_, rfl, by decide⟩, ?_⟩
  · intro i hi
    interval_cases i <;> decide
  · exact (retry_discipline 5 c4WitnessOracle).2.1 2 7
      (fun i hi => by interval_cases i <;> decide) rfl (by decide)

/-! ## Claim C2 — strict package-name subject scoring -/

/-- C2: when `_extract_package_name` extracts a non-empty package name
from both subjects, the subject score is exactly 1.0 for equal names and
exactly 0.0 for different names; in particular two automation titles
bumping different packages never receive subject score 1.0. -/
theorem subject_score_package_strict (subject1 subject2 : List Char)
    (h1 : extractPackageName subject1 ≠ [])
    (h2 : extractPackageName subject2 ≠ []) :
    compareSubjects subject1 subject2
      = if extractPackageName subject1 = extractPackageName subject2 then 1 else 0 := by
  simp only [compareSubjects]
  rw [if_pos ⟨h1, h2⟩]

/-- Witness for C2 at the specification's example titles, whose packages
differ, so the subject score is exactly 0. -/
theorem subject_score_package_strict_witness :
    extractPackageName "Bump docker/metadata-action from 5.7.0 to 5.8.0".data ≠ []
    ∧ extractPackageName
        "Bump lfreleng-actions/python-build-action from 1.2.0 to 1.3.0".data ≠ []
    ∧ compareSubjects "Bump docker/metadata-action from 5.7.0 to 5.8.0".data
        "Bump lfreleng-actions/python-build-action from 1.2.0 to 1.3.0".data
      = (if extractPackageName "Bump docker/metadata-action from 5.7.0 to 5.8.0".data
          = extractPackageName
              "Bump lfreleng-actions/python-build-action from 1.2.0 to 1.3.0".data
        then 1 else 0)
    ∧ (if extractPackageName "Bump docker/metadata-action from 5.7.0 to 5.8.0".data
          = extractPackageName
              "Bump lfreleng-actions/python-build-action from 1.2.0 to 1.3.0".data
        then (1 : ℚ) else 0) = 0 := by
  refine ⟨by decide, by decide,
    subject_score_package_strict _ _ (by decide) (by decide), ?_⟩
  rw [if_neg (by decide)]

/-! ## Claim C6 — owner normalization -/

theorem toLower_idem (c : Char) :
    Char.toLower (Char.toLower c) = Char.toLower c := by
  have key : ∀ m : Nat, 97 ≤ m → m ≤ 122 → (Char.ofNat m).toNat = m := by
    intro m h1 h2
    interval_cases m <;> decide
  by_cases h : 65 ≤ c.toNat ∧ c.toNat ≤ 90
  · have h1 : Char.toLower c = Char.ofNat (c.toNat + 32) := by
      unfold Char.toLower
      rw [if_pos ⟨h.1, h.2⟩]
    rw [h1]
    have h2 := key (c.toNat + 32) (by omega) (by omega)
    unfold Char.toLower
    rw [if_neg]
    rw [h2]
    omega
  · have h1 : Char.toLower c = c := by
      unfold Char.toLower
      rw [if_neg h]
    rw [h1]
    exact h1

theorem pyLower_fixed_of_mem_lower (s y : List Char)
    (hsub : ∀ c, c ∈ y → c ∈ pyLower s) : pyLower y = y := by
  have : ∀ c ∈ y, Char.toLower c = c := by
    intro c hc
    obtain ⟨d, _, hd⟩ := List.mem_map.mp (hsub c hc)
    rw [← hd]
    exact toLower_idem d
  calc pyLower y = y.map id := List.map_congr_left this
    _ = y := List.map_id y

theorem head_dropWhile_not {p : Char → Bool} :
    ∀ (l : List Char) (c : Char), (l.dropWhile p).head? = some c → p c = false := by
  intro l
  induction l with
  | nil =>
    intro c hc
    simp at hc
  | cons a t ih =>
    intro c hc
    rw [List.dropWhile_cons] at hc
    by_cases hp : p a = true
    · rw [if_pos hp] at hc
      exact ih c hc
    · rw [if_neg hp] at hc
      simp at hc
      rw [← hc]
      simpa using hp

theorem head_take_eq {n : Nat} {l : List Char} {c : Char}
    (h : (l.take n).head? = some c) : l.head? = some c := by
  cases l with
  | nil => simp at h
  | cons a t =>
    cases n with
    | zero => simp at h
    | succ m =>
      simpa using h

theorem head_pyStrip_not_space (s : List Char) (c : Char)
    (h : (pyStrip s).head? = some c) : pyIsSpace c = false := by
  unfold pyStrip at h
  have hdecomp := List.takeWhile_append_dropWhile pyIsSpace (s.dropWhile pyIsSpace).reverse
  have hfull : (s.dropWhile pyIsSpace) =
      ((s.dropWhile pyIsSpace).reverse.dropWhile pyIsSpace).reverse
        ++ ((s.dropWhile pyIsSpace).reverse.takeWhile pyIsSpace).reverse := by
    have h := congrArg List.reverse hdecomp
    rw [List.reverse_append, List.reverse_reverse] at h
    exact h.symm
  have hmid : ((s.dropWhile pyIsSpace).reverse.dropWhile pyIsSpace).reverse.head? = some c := h
  have hhead : (s.dropWhile pyIsSpace).head? = some c := by
    rw [hfull, List.head?_append, hmid]
    rfl
  exact head_dropWhile_not s c hhead

theorem head_normalizeOwner_not_space (x : List Char) (c : Char)
    (h : (normalizeOwner x).head? = some c) : pyIsSpace c = false := by
  unfold normalizeOwner at h
  by_cases hx : x.isEmpty
  · rw [if_pos hx] at h
    simp at h
  · rw [if_neg hx] at h
    simp only [removeBotSuffixes] at h
    have hstrip : (pyStrip (pyLower x)).head? = some c → pyIsSpace c = false :=
      head_pyStrip_not_space (pyLower x) c
    split at h
    · split at h
      · exact hstrip (head_take_eq (head_take_eq h))
      · split at h
        · exact hstrip (head_take_eq (head_take_eq h))
        · split at h
          · exact hstrip (head_take_eq (head_take_eq h))
          · exact hstrip (head_take_eq h)
    · split at h
      · exact hstrip (head_take_eq h)
      · split at h
        · exact hstrip (head_take_eq h)
        · split at h
          · exact hstrip (head_take_eq h)
          · exact hstrip h

theorem mem_normalizeOwner_sub (x : List Char) (c : Char)
    (h : c ∈ normalizeOwner x) : c ∈ pyLower x := by
  unfold normalizeOwner at h
  by_cases hx : x.isEmpty
  · rw [if_pos hx] at h
    simp at h
  · rw [if_neg hx] at h
    simp only [removeBotSuffixes] at h
    have hstrip : ∀ d : Char, d ∈ pyStrip (pyLower x) → d ∈ pyLower x := by
      intro d hd
      unfold pyStrip at hd
      rw [List.mem_reverse] at hd
      have hd2 := (List.dropWhile_sublist pyIsSpace).mem hd
      rw [List.mem_reverse] at hd2
      exact (List.dropWhile_sublist pyIsSpace).mem hd2
    have htake : ∀ (n : Nat) (l : List Char), c ∈ l.take n → c ∈ l := by
      intro n l hc
      exact (List.take_sublist n l).mem hc
    split at h
    · split at h
      · exact hstrip c (htake _ _ (htake _ _ h))
      · split at h
        · exact hstrip c (htake _ _ (htake _ _ h))
        · split at h
          · exact hstrip c (htake _ _ (htake _ _ h))
          · exact hstrip c (htake _ _ h)
    · split at h
      · exact hstrip c (htake _ _ h)
      · split at h
        · exact hstrip c (htake _ _ h)
        · split at h
          · exact hstrip c (htake _ _ h)
          · exact hstrip c h

theorem pyStrip_eq_self (s : List Char)
    (hhead : ∀ c, s.head? = some c → pyIsSpace c = false)
    (hlast : ∀ c, s.getLast? = some c → pyIsSpace c = false) :
    pyStrip s = s := by
  unfold pyStrip
  have h1 : s.dropWhile pyIsSpace = s := by
    cases s with
    | nil => rfl
    | cons a t =>
      rw [List.dropWhile_cons]
      rw [hhead a rfl]
      simp
  rw [h1]
  have h2 : s.reverse.dropWhile pyIsSpace = s.reverse := by
    cases hr : s.reverse with
    | nil => rfl
    | cons a t =>
      rw [List.dropWhile_cons]
      have ha : s.getLast? = some a := by
        rw [List.getLast?_eq_head?_reverse, hr]
        rfl
      rw [hlast a ha]
      simp
  rw [h2, List.reverse_reverse]

/-- Counterexample to C6 as stated: `_normalize_owner` removes only one
`[bot]` suffix and then at most one of `-bot`/`_bot`/`.bot`, so on
`"a-bot-bot"` one pass gives `"a-bot"` and a second pass gives `"a"`. -/
theorem normalize_owner_counterexample :
    normalizeOwner (normalizeOwner "a-bot-bot".data)
      ≠ normalizeOwner "a-bot-bot".data := by
  decide

/-- Amended C6: owner normalization is idempotent on every input whose
normalized form does not itself still end in whitespace or in one of the
removed suffixes (`[bot]`, `-bot`, `_bot`, `.bot`) — stacked suffixes
such as `"a-bot-bot"` are the only failures — and it is
suffix-insensitive on the claim's examples:
`normalize("dependabot[bot]") = normalize("dependabot") = "dependabot"`. -/
theorem normalize_owner_guarded_idempotent (x : List Char)
    (hspace : endsWithSpaceChar (normalizeOwner x) = false)
    (hsuffix : endsWithBotSuffix (normalizeOwner x) = false) :
    (normalizeOwner (normalizeOwner x) = normalizeOwner x
      ∧ normalizeOwner "dependabot[bot]".data = "dependabot".data
      ∧ normalizeOwner "dependabot".data = "dependabot".data) := by
  refine ⟨?_, by decide, by decide⟩
  by_cases hy : normalizeOwner x = []
  · rw [hy]
    decide
  · have hlower : pyLower (normalizeOwner x) = normalizeOwner x :=
      pyLower_fixed_of_mem_lower x _ (mem_normalizeOwner_sub x)
    have hstrip : pyStrip (normalizeOwner x) = normalizeOwner x := by
      refine pyStrip_eq_self _ (head_normalizeOwner_not_space x) ?_
      intro c hc
      by_contra hcs
      simp only [Bool.not_eq_false] at hcs
      have habs : endsWithSpaceChar (normalizeOwner x) = true := by
        rw [endsWithSpaceChar, hc]
        simpa using hcs
      rw [habs] at hspace
      exact Bool.noConfusion hspace
    have hne : (normalizeOwner x).isEmpty = false := by
      cases h : normalizeOwner x with
      | nil => exact absurd h hy
      | cons a t => rfl
    simp only [endsWithBotSuffix, Bool.or_eq_false_iff] at hsuffix
    obtain ⟨⟨⟨hb1, hb2⟩, hb3⟩, hb4⟩ := hsuffix
    have hsub : pyStrip (pyLower (normalizeOwner x)) = normalizeOwner x := by
      rw [hlower, hstrip]
    rw [normalizeOwner, if_neg (by simp [hne])]
    simp only [hsub, hb1, Bool.false_eq_true, if_false]
    simp only [removeBotSuffixes, hb2, hb3, hb4, Bool.false_eq_true, if_false]

/-- Witness for the amended C6 at `"Dependabot[bot]"`. -/
theorem normalize_owner_guarded_witness :
    (endsWithSpaceChar (normalizeOwner "Dependabot[bot]".data) = false
      ∧ endsWithBotSuffix (normalizeOwner "Dependabot[bot]".data) = false)
    ∧ (normalizeOwner (normalizeOwner "Dependabot[bot]".data)
        = normalizeOwner "Dependabot[bot]".data
      ∧ normalizeOwner "dependabot[bot]".data = "dependabot".data
      ∧ normalizeOwner "dependabot".data = "dependabot".data) :=
  ⟨⟨by decide, by decide⟩,
    normalize_owner_guarded_idempotent "Dependabot[bot]".data (by decide) (by decide)⟩

/-! ## Claim C7 — file-set Jaccard scoring with the workflow floor -/

theorem matchVersionAt_none (wp : Bool) (c : Char) (l : List Char)
    (hv : c ≠ 'v') (hd : c.isDigit = false) :
    matchVersionAt wp (c :: l) = none := by
  have hnum : matchVersionNum (c :: l) = none := by
    simp [matchVersionNum, List.takeWhile_cons, hd]
  simp only [matchVersionAt]
  rw [if_neg hv]
  simp only [hnum]

theorem subVersionFuel_append_nostart (wp : Bool) (repl : List Char) :
    ∀ (p : List Char) (fuel : Nat) (rest : List Char),
    (∀ c ∈ p, c ≠ 'v' ∧ c.isDigit = false) →
    subVersionFuel wp repl (p.length + fuel) (p ++ rest)
      = p ++ subVersionFuel wp repl fuel rest := by
  intro p
  induction p with
  | nil =>
    intro fuel rest _
    simp
  | cons c t ih =>
    intro fuel rest hchars
    have hc := hchars c (by simp)
    have hnone := matchVersionAt_none wp c (t ++ rest) hc.1 hc.2
    have harith : (c :: t).length + fuel = (t.length + fuel) + 1 := by
      simp
      omega
    rw [harith]
    show subVersionFuel wp repl ((t.length + fuel) + 1) (c :: (t ++ rest))
      = c :: (t ++ subVersionFuel wp repl fuel rest)
    rw [subVersionFuel, hnone]
    exact congrArg (c :: ·) (ih fuel rest (fun d hd => hchars d (by simp [hd])))

theorem containsSub_of_isPrefixOf (p s : List Char) (h : p.isPrefixOf s = true) :
    containsSub p s = true := by
  cases s with
  | nil =>
    cases p with
    | nil => rfl
    | cons a t => simp [List.isPrefixOf] at h
  | cons c rest =>
    rw [containsSub, h]
    rfl

/-- `_normalize_filename` keeps the literal `.github/workflows/` prefix:
the version pattern cannot start inside it (it contains no `v` and no
digit) and lower-casing fixes it. -/
theorem normalizeFilename_workflow_prefix (f : List Char)
    (h : workflowsDir.isPrefixOf f = true) :
    containsSub workflowsDir (normalizeFilename f) = true := by
  obtain ⟨rest, hrest⟩ : ∃ rest, f = workflowsDir ++ rest := by
    obtain ⟨rest, hr⟩ := List.isPrefixOf_iff_prefix.mp h
    exact ⟨rest, hr.symm⟩
  subst hrest
  unfold normalizeFilename subVersion
  have hlen : (workflowsDir ++ rest).length = workflowsDir.length + rest.length := by
    simp
  rw [hlen]
  rw [subVersionFuel_append_nostart false [] workflowsDir rest.length rest (by decide)]
  unfold pyLower
  rw [List.map_append]
  have hwl : workflowsDir.map Char.toLower = workflowsDir := by decide
  rw [hwl]
  apply containsSub_of_isPrefixOf
  exact List.isPrefixOf_iff_prefix.mpr ⟨_, rfl⟩

theorem isEmpty_false_of_ne_nil {l : List GerritFileChange} (h : l ≠ []) :
    l.isEmpty = false := by
  cases l with
  | nil => exact absurd rfl h
  | cons a t => rfl

/-- C7: for non-empty changed-file lists the score is the Jaccard
similarity of the normalized filename sets, floored at 0.5 when both
sides touch a `.github/workflows/` path; disjoint non-workflow sets
score exactly 0. -/
theorem files_score_jaccard (source target : GerritChangeInfo)
    (h1 : source.filesChanged ≠ []) (h2 : target.filesChanged ≠ []) :
    (compareFiles source target
      = if (workflowTouch (normalizedFileSet source)).Nonempty
            ∧ (workflowTouch (normalizedFileSet target)).Nonempty
        then max (jaccardQ (normalizedFileSet source) (normalizedFileSet target)) (1 / 2)
        else jaccardQ (normalizedFileSet source) (normalizedFileSet target))
    ∧ ((∃ fc ∈ source.filesChanged, workflowsDir.isPrefixOf fc.filename = true) →
        (∃ fc ∈ target.filesChanged, workflowsDir.isPrefixOf fc.filename = true) →
        1 / 2 ≤ compareFiles source target)
    ∧ (normalizedFileSet source ∩ normalizedFileSet target = ∅ →
        ¬((workflowTouch (normalizedFileSet source)).Nonempty
          ∧ (workflowTouch (normalizedFileSet target)).Nonempty) →
        compareFiles source target = 0) := by
  have hA : (normalizedFileSet source).Nonempty := by
    cases hfc : source.filesChanged with
    | nil => exact absurd hfc h1
    | cons f rest =>
      exact ⟨normalizeFilename f.filename, by simp [normalizedFileSet, hfc]⟩
  have hunion : (normalizedFileSet source ∪ normalizedFileSet target).card ≠ 0 := by
    rw [Finset.card_ne_zero]
    exact hA.inl
  have heq : compareFiles source target
      = if (workflowTouch (normalizedFileSet source)).Nonempty
            ∧ (workflowTouch (normalizedFileSet target)).Nonempty
        then max (jaccardQ (normalizedFileSet source) (normalizedFileSet target)) (1 / 2)
        else jaccardQ (normalizedFileSet source) (normalizedFileSet target) := by
    rw [compareFiles]
    rw [if_neg (by simp [isEmpty_false_of_ne_nil h1, isEmpty_false_of_ne_nil h2])]
    simp only []
    rw [if_neg (by simpa [normalizedFileSet] using hunion)]
    simp only [normalizedFileSet, workflowTouch, jaccardQ]
  refine ⟨heq, ?_, ?_⟩
  · intro hsrc htgt
    obtain ⟨fs, hfs, hfsw⟩ := hsrc
    obtain ⟨ft, hft, hftw⟩ := htgt
    have hsw : (workflowTouch (normalizedFileSet source)).Nonempty := by
      refine ⟨normalizeFilename fs.filename, ?_⟩
      rw [workflowTouch, Finset.mem_filter]
      refine ⟨?_, normalizeFilename_workflow_prefix _ hfsw⟩
      simp only [normalizedFileSet, List.mem_toFinset, List.mem_map]
      exact ⟨fs, hfs, rfl⟩
    have htw : (workflowTouch (normalizedFileSet target)).Nonempty := by
      refine ⟨normalizeFilename ft.filename, ?_⟩
      rw [workflowTouch, Finset.mem_filter]
      refine ⟨?_, normalizeFilename_workflow_prefix _ hftw⟩
      simp only [normalizedFileSet, List.mem_toFinset, List.mem_map]
      exact ⟨ft, hft, rfl⟩
    rw [heq, if_pos ⟨hsw, htw⟩]
    exact le_max_right _ _
  · intro hdisj hnwf
    rw [heq, if_neg hnwf]
    rw [jaccardQ, hdisj]
    simp

/-- Witness for C7 at two changes touching differently named workflow
files. -/
theorem files_score_jaccard_witness :
    (c7Source.filesChanged ≠ [] ∧ c7Target.filesChanged ≠ [])
    ∧ ((compareFiles c7Source c7Target
        = if (workflowTouch (normalizedFileSet c7Source)).Nonempty
              ∧ (workflowTouch (normalizedFileSet c7Target)).Nonempty
          then max (jaccardQ (normalizedFileSet c7Source) (normalizedFileSet c7Target)) (1 / 2)
          else jaccardQ (normalizedFileSet c7Source) (normalizedFileSet c7Target))
      ∧ ((∃ fc ∈ c7Source.filesChanged, workflowsDir.isPrefixOf fc.filename = true) →
          (∃ fc ∈ c7Target.filesChanged, workflowsDir.isPrefixOf fc.filename = true) →
          1 / 2 ≤ compareFiles c7Source c7Target)
      ∧ (normalizedFileSet c7Source ∩ normalizedFileSet c7Target = ∅ →
          ¬((workflowTouch (normalizedFileSet c7Source)).Nonempty
            ∧ (workflowTouch (normalizedFileSet c7Target)).Nonempty) →
          compareFiles c7Source c7Target = 0)) :=
  ⟨⟨by decide, by decide⟩, files_score_jaccard c7Source c7Target (by decide) (by decide)⟩

/-! ## Claim C1 — aggregate score and similarity decision -/

/-- Amended C1: for every pair that passes the automation gate,
`is_similar` is true iff the mean of the four dimension scores reaches
the threshold, and the returned `confidence_score` equals that mean when
the pair is similar and `0.0` otherwise (`not_similar()` resets it). -/
theorem aggregate_score_amended (thr : ℚ) (src tgt : GerritChangeInfo)
    (hsrc : isAutomationChange src = true) (htgt : isAutomationChange tgt = true) :
    ((compareGerritChanges thr src tgt true).isSimilar = true
      ↔ thr ≤ dimensionScoresMean src tgt)
    ∧ (compareGerritChanges thr src tgt true).confidenceScore
      = (if thr ≤ dimensionScoresMean src tgt then dimensionScoresMean src tgt else 0) := by
  have hmean : ([compareOwners src tgt, compareSubjects src.subject tgt.subject,
        compareMessages src.message tgt.message, compareFiles src tgt].sum
      / (([compareOwners src tgt, compareSubjects src.subject tgt.subject,
        compareMessages src.message tgt.message, compareFiles src tgt].length : Nat) : ℚ))
      = dimensionScoresMean src tgt := by
    simp only [List.sum_cons, List.sum_nil, List.length_cons, List.length_nil,
      dimensionScoresMean]
    push_cast
    ring
  rw [compareGerritChanges]
  rw [if_neg (by simp [hsrc, htgt])]
  simp only [List.isEmpty_cons, Bool.false_eq_true, if_false, hmean]
  by_cases h : thr ≤ dimensionScoresMean src tgt
  · rw [if_pos h, if_pos h]
    simp [h]
  · rw [if_neg h, if_neg h]
    simp [GerritComparisonResult.notSimilar, h]

/-- Counterexample to C1 as stated: a gate-passing pair with dimension
scores (1, 0, 0, 0) — same owner, different packages, no messages, no
files — has mean 1/4, yet the returned result is `not_similar()` with
`confidence_score = 0`, not the mean. -/
theorem aggregate_score_counterexample :
    isAutomationChange c1Source = true
    ∧ isAutomationChange c1Target = true
    ∧ (compareGerritChanges ((8 : ℚ) / 10) c1Source c1Target true).confidenceScore = 0
    ∧ dimensionScoresMean c1Source c1Target = 1 / 4
    ∧ (0 : ℚ) ≠ 1 / 4 := by
  have h1 : compareOwners c1Source c1Target = 1 := by
    rw [compareOwners, if_pos (by decide)]
  have h2 : compareSubjects c1Source.subject c1Target.subject = 0 := by
    simp only [compareSubjects]
    rw [if_pos ⟨by decide, by decide⟩, if_neg (by decide)]
  have h3 : compareMessages c1Source.message c1Target.message = 0 := rfl
  have h4 : compareFiles c1Source c1Target = 0 := by
    rw [compareFiles, if_pos (by decide)]
  have hmean : dimensionScoresMean c1Source c1Target = 1 / 4 := by
    rw [dimensionScoresMean, h1, h2, h3, h4]
    norm_num
  refine ⟨by decide, by decide, ?_, hmean, by norm_num⟩
  rw [compareGerritChanges]
  rw [if_neg (by simp [(by decide : isAutomationChange c1Source = true),
    (by decide : isAutomationChange c1Target = true)])]
  simp only [h1, h2, h3, h4, List.isEmpty_cons, Bool.false_eq_true, if_false]
  rw [if_neg (by norm_num)]
  rfl

/-- Witness for the amended C1: a fully matching pair (same owner, same
package, equal short messages, identical file sets) whose mean is 1 and
which is therefore similar with confidence 1. -/
theorem aggregate_score_witness :
    (isAutomationChange
        (GerritChangeInfo.mk 1 "p".data "Bump aaa from 1.0.0 to 2.0.0".data
          (some "Update deps".data) "dependabot".data "NEW".data false []) = true)
    ∧ (((compareGerritChanges ((8 : ℚ) / 10)
          (GerritChangeInfo.mk 1 "p".data "Bump aaa from 1.0.0 to 2.0.0".data
            (some "Update deps".data) "dependabot".data "NEW".data false [])
          (GerritChangeInfo.mk 1 "p".data "Bump aaa from 1.0.0 to 2.0.0".data
            (some "Update deps".data) "dependabot".data "NEW".data false [])
          true).isSimilar = true
        ↔ (8 : ℚ) / 10 ≤ dimensionScoresMean
            (GerritChangeInfo.mk 1 "p".data "Bump aaa from 1.0.0 to 2.0.0".data
              (some "Update deps".data) "dependabot".data "NEW".data false [])
            (GerritChangeInfo.mk 1 "p".data "Bump aaa from 1.0.0 to 2.0.0".data
              (some "Update deps".data) "dependabot".data "NEW".data false []))
      ∧ (compareGerritChanges ((8 : ℚ) / 10)
          (GerritChangeInfo.mk 1 "p".data "Bump aaa from 1.0.0 to 2.0.0".data
            (some "Update deps".data) "dependabot".data "NEW".data false [])
          (GerritChangeInfo.mk 1 "p".data "Bump aaa from 1.0.0 to 2.0.0".data
            (some "Update deps".data) "dependabot".data "NEW".data false [])
          true).confidenceScore
        = (if (8 : ℚ) / 10 ≤ dimensionScoresMean
              (GerritChangeInfo.mk 1 "p".data "Bump aaa from 1.0.0 to 2.0.0".data
                (some "Update deps".data) "dependabot".data "NEW".data false [])
              (GerritChangeInfo.mk 1 "p".data "Bump aaa from 1.0.0 to 2.0.0".data
                (some "Update deps".data) "dependabot".data "NEW".data false [])
            then dimensionScoresMean
              (GerritChangeInfo.mk 1 "p".data "Bump aaa from 1.0.0 to 2.0.0".data
                (some "Update deps".data) "dependabot".data "NEW".data false [])
              (GerritChangeInfo.mk 1 "p".data "Bump aaa from 1.0.0 to 2.0.0".data
                (some "Update deps".data) "dependabot".data "NEW".data false [])
            else 0)) :=
  ⟨by decide, aggregate_score_amended ((8 : ℚ) / 10) _ _ (by decide) (by decide)⟩

/-! ## Claim C8 — confidence scores lie in `[0,1]`

The only non-trivial dimension bound is the `SequenceMatcher` ratio.
The lemmas below show that `find_longest_match` always returns a match
contained in its window, hence the total size of the matching blocks is
at most `min (ahi-alo) (bhi-blo)`, hence `ratio() ≤ 1`. -/

theorem flmRow_inv (alo i blo bhi bound : Nat) (j2old : Nat → Nat)
    (hbound : alo + bound ≤ i)
    (hold : flmDictInv blo bound j2old) :
    ∀ (js : List Nat) (j2new : Nat → Nat) (best : FLMBest),
    flmDictInv blo (bound + 1) j2new →
    flmBestInv alo blo (i + 1) bhi best →
    flmDictInv blo (bound + 1) (flmRow i blo bhi j2old js j2new best).1
      ∧ flmBestInv alo blo (i + 1) bhi (flmRow i blo bhi j2old js j2new best).2 := by
  intro js
  induction js with
  | nil =>
    intro j2new best hnew hbest
    simpa [flmRow] using ⟨hnew, hbest⟩
  | cons j rest ih =>
    intro j2new best hnew hbest
    simp only [flmRow]
    by_cases hjlo : j < blo
    · rw [if_pos hjlo]
      exact ih _ _ hnew hbest
    · rw [if_neg hjlo]
      by_cases hjhi : bhi ≤ j
      · rw [if_pos hjhi]
        exact ⟨hnew, hbest⟩
      · rw [if_neg hjhi]
        have hkb : (if j = 0 then 0 else j2old (j - 1)) + 1 ≤ bound + 1 := by
          split
          · omega
          · rcases hold (j - 1) with h | ⟨h1, h2⟩ <;> omega
        have hkj : blo + ((if j = 0 then 0 else j2old (j - 1)) + 1) ≤ j + 1 := by
          split
          next hj0 =>
            subst hj0
            omega
          next hj0 =>
            rcases hold (j - 1) with h | ⟨h1, h2⟩ <;> omega
        apply ih
        · intro x
          by_cases hx : x = j
          · subst hx
            right
            simp only [if_pos rfl]
            exact ⟨hkj, hkb⟩
          · simp only [if_neg hx]
            exact hnew x
        · rcases hbest with ⟨hb1, hb2, hb3, hb4⟩
          by_cases hupd : best.bestsize < (if j = 0 then 0 else j2old (j - 1)) + 1
          · rw [if_pos hupd]
            refine ⟨?_, ?_, fun _ => ⟨?_, ?_⟩,
              fun h0 => absurd (h0 : (if j = 0 then 0 else j2old (j - 1)) + 1 = 0)
                (Nat.succ_ne_zero _)⟩
            · show alo ≤ i + 1 - ((if j = 0 then 0 else j2old (j - 1)) + 1)
              omega
            · show blo ≤ j + 1 - ((if j = 0 then 0 else j2old (j - 1)) + 1)
              omega
            · show i + 1 - ((if j = 0 then 0 else j2old (j - 1)) + 1)
                + ((if j = 0 then 0 else j2old (j - 1)) + 1) ≤ i + 1
              omega
            · show j + 1 - ((if j = 0 then 0 else j2old (j - 1)) + 1)
                + ((if j = 0 then 0 else j2old (j - 1)) + 1) ≤ bhi
              omega
          · rw [if_neg hupd]
            exact ⟨hb1, hb2, hb3, hb4⟩

theorem flmRows_inv (a : List Char) (bj : Char → List Nat) (alo blo bhi : Nat) :
    ∀ (d i ahi : Nat), ahi - i = d → alo ≤ i →
    ∀ (j2len : Nat → Nat) (best : FLMBest),
    flmDictInv blo (i - alo) j2len →
    flmBestInv alo blo i bhi best →
    flmBestInv alo blo (max i ahi) bhi (flmRows a bj blo bhi i ahi j2len best) := by
  intro d
  induction d with
  | zero =>
    intro i ahi hd hi j2len best hdict hbest
    rw [flmRows]
    rw [if_neg (by omega)]
    have hmax : max i ahi = i := by omega
    rw [hmax]
    exact hbest
  | succ n ihd =>
    intro i ahi hd hi j2len best hdict hbest
    rw [flmRows]
    rw [if_pos (by omega)]
    have hbest1 : flmBestInv alo blo (i + 1) bhi best := by
      rcases hbest with ⟨h1, h2, h3, h4⟩
      exact ⟨h1, h2, fun h0 => ⟨le_trans (h3 h0).1 (by omega), (h3 h0).2⟩, h4⟩
    have hrow := flmRow_inv alo i blo bhi (i - alo) j2len (by omega) hdict
      (bj (a.getD i ' ')) (fun _ => 0) best (fun j => Or.inl rfl) hbest1
    have hdict1 : flmDictInv blo (i + 1 - alo)
        (flmRow i blo bhi j2len (bj (a.getD i ' ')) (fun _ => 0) best).1 := by
      have harith : i - alo + 1 = i + 1 - alo := by omega
      rw [← harith]
      exact hrow.1
    have := ihd (i + 1) ahi (by omega) (by omega) _ _ hdict1 hrow.2
    have hmax : max (i + 1) ahi = max i ahi := by omega
    rw [hmax] at this
    exact this

theorem extendLeft_inv (a b : List Char) (alo blo ahi bhi : Nat) :
    ∀ (d : Nat) (best : FLMBest), best.besti - alo = d →
    flmBestInv alo blo ahi bhi best →
    flmBestInv alo blo ahi bhi (extendLeft a b alo blo best) := by
  intro d
  induction d with
  | zero =>
    intro best hd hbest
    rw [extendLeft]
    rw [dif_neg]
    · exact hbest
    · rintro ⟨h1, _, _⟩
      omega
  | succ n ihd =>
    intro best hd hbest
    rw [extendLeft]
    split
    next h =>
      rcases hbest with ⟨hb1, hb2, hb3, hb4⟩
      apply ihd
      · show best.besti - 1 - alo = n
        omega
      · refine ⟨?_, ?_, fun _ => ⟨?_, ?_⟩,
          fun h0 => absurd (h0 : best.bestsize + 1 = 0) (Nat.succ_ne_zero _)⟩
        · show alo ≤ best.besti - 1
          omega
        · show blo ≤ best.bestj - 1
          omega
        · show best.besti - 1 + (best.bestsize + 1) ≤ ahi
          rcases Nat.eq_zero_or_pos best.bestsize with hz | hp
          · have h4 := hb4 hz
            omega
          · have h3 := hb3 (by omega)
            omega
        · show best.bestj - 1 + (best.bestsize + 1) ≤ bhi
          rcases Nat.eq_zero_or_pos best.bestsize with hz | hp
          · have h4 := hb4 hz
            omega
          · have h3 := hb3 (by omega)
            omega
    next =>
      exact hbest

theorem extendRight_inv (a b : List Char) (alo blo ahi bhi : Nat) :
    ∀ (d : Nat) (best : FLMBest), ahi - (best.besti + best.bestsize) = d →
    flmBestInv alo blo ahi bhi best →
    flmBestInv alo blo ahi bhi (extendRight a b ahi bhi best) := by
  intro d
  induction d with
  | zero =>
    intro best hd hbest
    rw [extendRight]
    rw [dif_neg]
    · exact hbest
    · rintro ⟨h1, _, _⟩
      omega
  | succ n ihd =>
    intro best hd hbest
    rw [extendRight]
    split
    next h =>
      rcases hbest with ⟨hb1, hb2, hb3, hb4⟩
      apply ihd
      · show ahi - (best.besti + (best.bestsize + 1)) = n
        omega
      · refine ⟨?_, ?_, fun _ => ⟨?_, ?_⟩,
          fun h0 => absurd (h0 : best.bestsize + 1 = 0) (Nat.succ_ne_zero _)⟩
        · show alo ≤ best.besti
          exact hb1
        · show blo ≤ best.bestj
          exact hb2
        · show best.besti + (best.bestsize + 1) ≤ ahi
          omega
        · show best.bestj + (best.bestsize + 1) ≤ bhi
          omega
    next =>
      exact hbest

theorem findLongestMatch_inv (a b : List Char) (alo ahi blo bhi : Nat) :
    flmBestInv alo blo ahi bhi (findLongestMatch a b alo ahi blo bhi) := by
  have hinit : flmBestInv alo blo alo bhi (FLMBest.mk alo blo 0) :=
    ⟨le_refl _, le_refl _, fun h0 => absurd rfl h0, fun _ => ⟨rfl, rfl⟩⟩
  have hrows : flmBestInv alo blo ahi bhi
      (flmRows a (b2j b) blo bhi alo ahi (fun _ => 0) (FLMBest.mk alo blo 0)) := by
    by_cases hle : alo ≤ ahi
    · have := flmRows_inv a (b2j b) alo blo bhi (ahi - alo) alo ahi rfl (le_refl _)
        (fun _ => 0) (FLMBest.mk alo blo 0) (fun j => Or.inl rfl) hinit
      have hmax : max alo ahi = ahi := by omega
      rw [hmax] at this
      exact this
    · rw [flmRows, if_neg (by omega)]
      exact ⟨le_refl _, le_refl _, fun h0 => absurd rfl h0, fun _ => ⟨rfl, rfl⟩⟩
  unfold findLongestMatch
  exact extendRight_inv a b alo blo ahi bhi _ _ rfl
    (extendLeft_inv a b alo blo ahi bhi _ _ rfl hrows)

theorem matchesSumFuel_le (a b : List Char) :
    ∀ (fuel alo ahi blo bhi : Nat),
    matchesSumFuel a b fuel alo ahi blo bhi ≤ min (ahi - alo) (bhi - blo) := by
  intro fuel
  induction fuel with
  | zero =>
    intro alo ahi blo bhi
    simp [matchesSumFuel]
  | succ n ih =>
    intro alo ahi blo bhi
    simp only [matchesSumFuel]
    obtain ⟨hq1, hq2, hq3, _⟩ := findLongestMatch_inv a b alo ahi blo bhi
    by_cases hz : (findLongestMatch a b alo ahi blo bhi).bestsize = 0
    · rw [if_pos hz]
      simp
    · rw [if_neg hz]
      obtain ⟨hs1, hs2⟩ := hq3 hz
      have h1 : (if alo < (findLongestMatch a b alo ahi blo bhi).besti
            ∧ blo < (findLongestMatch a b alo ahi blo bhi).bestj
          then matchesSumFuel a b n alo (findLongestMatch a b alo ahi blo bhi).besti
            blo (findLongestMatch a b alo ahi blo bhi).bestj
          else 0)
          ≤ min ((findLongestMatch a b alo ahi blo bhi).besti - alo)
              ((findLongestMatch a b alo ahi blo bhi).bestj - blo) := by
        split
        · exact ih _ _ _ _
        · simp
      have h2 : (if (findLongestMatch a b alo ahi blo bhi).besti
              + (findLongestMatch a b alo ahi blo bhi).bestsize < ahi
            ∧ (findLongestMatch a b alo ahi blo bhi).bestj
              + (findLongestMatch a b alo ahi blo bhi).bestsize < bhi
          then matchesSumFuel a b n
            ((findLongestMatch a b alo ahi blo bhi).besti
              + (findLongestMatch a b alo ahi blo bhi).bestsize) ahi
            ((findLongestMatch a b alo ahi blo bhi).bestj
              + (findLongestMatch a b alo ahi blo bhi).bestsize) bhi
          else 0)
          ≤ min (ahi - ((findLongestMatch a b alo ahi blo bhi).besti
              + (findLongestMatch a b alo ahi blo bhi).bestsize))
              (bhi - ((findLongestMatch a b alo ahi blo bhi).bestj
              + (findLongestMatch a b alo ahi blo bhi).bestsize)) := by
        split
        · exact ih _ _ _ _
        · simp
      rw [Nat.le_min] at h1 h2 ⊢
      obtain ⟨h1a, h1b⟩ := h1
      obtain ⟨h2a, h2b⟩ := h2
      constructor <;> omega

theorem matchesTotal_le (a b : List Char) :
    2 * matchesTotal a b ≤ a.length + b.length := by
  have h := matchesSumFuel_le a b (a.length + b.length + 1) 0 a.length 0 b.length
  rw [Nat.le_min] at h
  unfold matchesTotal
  omega

theorem sequenceRatio_bounds (a b : List Char) :
    0 ≤ sequenceRatio a b ∧ sequenceRatio a b ≤ 1 := by
  simp only [sequenceRatio]
  by_cases h : a.length + b.length = 0
  · rw [if_pos h]
    norm_num
  · rw [if_neg h]
    have hpos : (0 : ℚ) < ((a.length + b.length : Nat) : ℚ) := by
      have : 0 < a.length + b.length := Nat.pos_of_ne_zero h
      exact_mod_cast this
    constructor
    · apply div_nonneg
      · positivity
      · positivity
    · rw [div_le_one (by push_cast at hpos ⊢; linarith)]
      have := matchesTotal_le a b
      push_cast
      exact_mod_cast this

theorem compareOwners_bounds (src tgt : GerritChangeInfo) :
    0 ≤ compareOwners src tgt ∧ compareOwners src tgt ≤ 1 := by
  unfold compareOwners
  split_ifs <;> norm_num

theorem compareSubjects_bounds (s1 s2 : List Char) :
    0 ≤ compareSubjects s1 s2 ∧ compareSubjects s1 s2 ≤ 1 := by
  simp only [compareSubjects]
  split_ifs with h h2
  · norm_num
  · norm_num
  · exact sequenceRatio_bounds _ _

theorem compareAutomationPatterns_bounds (m1 m2 : List Char) :
    0 ≤ compareAutomationPatterns m1 m2 ∧ compareAutomationPatterns m1 m2 ≤ 1 := by
  simp only [compareAutomationPatterns]
  split_ifs <;> norm_num

theorem compareMessages_bounds (m1 m2 : Option (List Char)) :
    0 ≤ compareMessages m1 m2 ∧ compareMessages m1 m2 ≤ 1 := by
  rcases m1 with _ | msg1
  · constructor <;> norm_num [compareMessages]
  · rcases m2 with _ | msg2
    · constructor <;> norm_num [compareMessages]
    · simp only [compareMessages]
      split_ifs with h1 h2 h3 h4
      · norm_num
      · norm_num
      · norm_num
      · exact compareAutomationPatterns_bounds msg1 msg2
      · exact sequenceRatio_bounds _ _

theorem compareFiles_bounds (src tgt : GerritChangeInfo) :
    0 ≤ compareFiles src tgt ∧ compareFiles src tgt ≤ 1 := by
  simp only [compareFiles]
  split_ifs with h1 h2 h3
  · norm_num
  · norm_num
  · constructor
    · refine le_trans (by norm_num : (0 : ℚ) ≤ 1 / 2) (le_max_right _ _)
    · apply max_le
      · rw [div_le_one]
        · have hsub := Finset.card_le_card
            (Finset.inter_subset_union
              (s := ((src.filesChanged.map (fun f => normalizeFilename f.filename)).toFinset))
              (t := ((tgt.filesChanged.map (fun f => normalizeFilename f.filename)).toFinset)))
          exact_mod_cast hsub
        · have : 0 < ((src.filesChanged.map (fun f => normalizeFilename f.filename)).toFinset
              ∪ (tgt.filesChanged.map (fun f => normalizeFilename f.filename)).toFinset).card :=
            Nat.pos_of_ne_zero h2
          exact_mod_cast this
      · norm_num
  · constructor
    · apply div_nonneg <;> positivity
    · rw [div_le_one]
      · have hsub := Finset.card_le_card
          (Finset.inter_subset_union
            (s := ((src.filesChanged.map (fun f => normalizeFilename f.filename)).toFinset))
            (t := ((tgt.filesChanged.map (fun f => normalizeFilename f.filename)).toFinset)))
        exact_mod_cast hsub
      · have : 0 < ((src.filesChanged.map (fun f => normalizeFilename f.filename)).toFinset
            ∪ (tgt.filesChanged.map (fun f => normalizeFilename f.filename)).toFinset).card :=
          Nat.pos_of_ne_zero h2
        exact_mod_cast this

/-- C8: every comparison result — similar, not similar, or rejected by
the automation gate — carries a `confidence_score` in `[0,1]`. -/
theorem confidence_in_unit_interval (thr : ℚ) (src tgt : GerritChangeInfo)
    (onlyAutomation : Bool) :
    0 ≤ (compareGerritChanges thr src tgt onlyAutomation).confidenceScore
    ∧ (compareGerritChanges thr src tgt onlyAutomation).confidenceScore ≤ 1 := by
  obtain ⟨ho1, ho2⟩ := compareOwners_bounds src tgt
  obtain ⟨hs1, hs2⟩ := compareSubjects_bounds src.subject tgt.subject
  obtain ⟨hm1, hm2⟩ := compareMessages_bounds src.message tgt.message
  obtain ⟨hf1, hf2⟩ := compareFiles_bounds src tgt
  have hconf : 0 ≤ ([compareOwners src tgt, compareSubjects src.subject tgt.subject,
        compareMessages src.message tgt.message, compareFiles src tgt].sum
        / (([compareOwners src tgt, compareSubjects src.subject tgt.subject,
          compareMessages src.message tgt.message, compareFiles src tgt].length : Nat) : ℚ))
      ∧ ([compareOwners src tgt, compareSubjects src.subject tgt.subject,
        compareMessages src.message tgt.message, compareFiles src tgt].sum
        / (([compareOwners src tgt, compareSubjects src.subject tgt.subject,
          compareMessages src.message tgt.message, compareFiles src tgt].length : Nat) : ℚ)) ≤ 1 := by
    simp only [List.sum_cons, List.sum_nil, List.length_cons, List.length_nil]
    push_cast
    constructor
    · apply div_nonneg
      · linarith
      · norm_num
    · rw [div_le_one (by norm_num)]
      linarith
  rw [compareGerritChanges]
  split
  · exact ⟨le_refl 0, by norm_num [GerritComparisonResult.notSimilar]⟩
  · simp only [List.isEmpty_cons, Bool.false_eq_true, if_false]
    split
    · exact ⟨hconf.1, hconf.2⟩
    · exact ⟨le_refl 0, by norm_num [GerritComparisonResult.notSimilar]⟩
